import Mathlib

/-!
A shallow embedding of `enhanced_pvz_simulation.py` (the discrete-event
queueing simulation of a pickup point with a staff-assisted channel and a
self-service channel), together with theorems checking the repository's
specification against it.

Modelling conventions:
* Python floats are modelled as rationals (`ℚ`).
* The global pseudo-random source (`random.random`, `random.normalvariate`,
  `random.uniform`) is modelled at the draw level by an `Oracle`: a family of
  streams, one per call site kind, consumed in order via per-stream counters
  carried in the engine state.  `expGap n` is the value returned by the n-th
  call of `exponential_random` (hence nonnegative, since it models
  `-log(1-u)/rate` with `u ∈ [0,1)`); `serviceNormal n` the n-th
  `normalvariate` result (any rational); `prefU n`, `balkU n`, `delayU n` the
  n-th `random.random()` result at the respective call site; `delayAmount n`
  the n-th `random.uniform(DELAY_TIME_MIN, DELAY_TIME_MAX)` result.
* Mutable `Customer` objects are identified by their `id` (which equals their
  index in `all_customers`); a mutation of the object referenced by an event
  or a queue is an update of the list entry with that id.
* The event list is kept in insertion order and `extractMin` removes the
  leftmost event of minimal time.  This dispatches events in exactly the same
  order as the source's stable `sort` + `pop(0)`: a stable sort puts the
  earliest-inserted event first among those of minimal time.
* The fields `enqLogEmp/deqLogEmp/enqLogSelf/deqLogSelf` are ghost observers
  (not present in the source): they record the order in which customer ids are
  appended to / popped from each waiting line, so that FIFO claims can be
  stated.  No embedded operation reads them.
-/

namespace PVZ

/-- `SIMULATION_TIME` constant of the source (minutes). -/
def SIMULATION_TIME : ℚ := 120

/-- `DELAY_PROBABILITY` constant of the source. -/
def DELAY_PROBABILITY : ℚ := 1/10

/-- `DELAY_TIME_MIN` constant of the source. -/
def DELAY_TIME_MIN : ℚ := 1

/-- `DELAY_TIME_MAX` constant of the source. -/
def DELAY_TIME_MAX : ℚ := 5

/-- `BAULK_PROBABILITY` constant of the source. -/
def BAULK_PROBABILITY : ℚ := 1/20

/-- The self-service preference probability constant of the source (0.5). -/
def SELF_SERVICE_PROB : ℚ := 1/2

/-- Draw-level model of the seeded pseudo-random source (see the header). -/
structure Oracle where
  expGap : ℕ → ℚ
  serviceNormal : ℕ → ℚ
  prefU : ℕ → ℚ
  balkU : ℕ → ℚ
  delayU : ℕ → ℚ
  delayAmount : ℕ → ℚ

/-- The guarantees the real random library gives about each stream:
`exponential_random` results are nonnegative, `random.uniform(1, 5)` results
lie in `[DELAY_TIME_MIN, DELAY_TIME_MAX]`, and `random.random()` results lie
in `[0, 1)`. -/
def validOracle (o : Oracle) : Prop :=
  ∀ n, 0 ≤ o.expGap n ∧
    DELAY_TIME_MIN ≤ o.delayAmount n ∧ o.delayAmount n ≤ DELAY_TIME_MAX ∧
    0 ≤ o.prefU n ∧ o.prefU n < 1 ∧
    0 ≤ o.balkU n ∧ o.balkU n < 1 ∧
    0 ≤ o.delayU n ∧ o.delayU n < 1

/-- The `Event` class: time, kind, referenced customer id.  Every call site of
the source passes a customer, so the `customer=None` default is dropped. -/
inductive EventType where
  | arrival
  | departure
  | balk
deriving DecidableEq

structure Event where
  time : ℚ
  type : EventType
  customer : ℕ
deriving DecidableEq

/-- The `Customer` class.  `service_time` is drawn at creation
(`max(0.1, normalvariate(...))`) and may later be scaled by zone efficiency. -/
structure Customer where
  id : ℕ
  arrival_time : ℚ
  start_service_time : Option ℚ
  departure_time : Option ℚ
  service_time : ℚ
  is_self_service : Bool
  balked : Bool
deriving DecidableEq

instance : Inhabited Customer := ⟨⟨0, 0, none, none, 0, false, false⟩⟩

/-- The `Zone` class used by the load-balancing ("bee") policy. -/
structure Zone where
  zone_id : ℕ
  load : ℕ
  efficiency : ℚ
deriving DecidableEq

/-- The `PickupPoint` engine state.  The last four fields are ghost observers
(see the header); the six `n...` counters record how many draws of each oracle
stream have been consumed. -/
structure PickupPoint where
  num_employees : ℤ
  num_self_service : ℤ
  use_bee_algorithm : Bool
  available_employees : ℤ
  available_self_service : ℤ
  employee_queue : List ℕ
  self_service_queue : List ℕ
  all_customers : List Customer
  waiting_times : List ℚ
  events : List Event
  time : ℚ
  total_customers : ℕ
  zones : Option (List Zone)
  balked_customers : ℕ
  total_queue_lengths : ℕ
  queue_observation_count : ℕ
  nExp : ℕ
  nNorm : ℕ
  nPref : ℕ
  nBalk : ℕ
  nDelay : ℕ
  nDelayAmt : ℕ
  enqLogEmp : List ℕ
  deqLogEmp : List ℕ
  enqLogSelf : List ℕ
  deqLogSelf : List ℕ
deriving DecidableEq

/-- `PickupPoint.__init__`.  The source performs no validation of its
arguments; when the bee policy is on it creates three zones with load 0 and
efficiency 1.0. -/
def mkPickupPoint (num_employees num_self_service : ℤ) (use_bee : Bool) :
    PickupPoint where
  num_employees := num_employees
  num_self_service := num_self_service
  use_bee_algorithm := use_bee
  available_employees := num_employees
  available_self_service := num_self_service
  employee_queue := []
  self_service_queue := []
  all_customers := []
  waiting_times := []
  events := []
  time := 0
  total_customers := 0
  zones := if use_bee then some [⟨0, 0, 1⟩, ⟨1, 0, 1⟩, ⟨2, 0, 1⟩] else none
  balked_customers := 0
  total_queue_lengths := 0
  queue_observation_count := 0
  nExp := 0
  nNorm := 0
  nPref := 0
  nBalk := 0
  nDelay := 0
  nDelayAmt := 0
  enqLogEmp := []
  deqLogEmp := []
  enqLogSelf := []
  deqLogSelf := []

/-- The customer object with id `cid` (ids equal list indices in every
reachable state). -/
def cust (s : PickupPoint) (cid : ℕ) : Customer :=
  s.all_customers.getD cid default

/-- Mutation `customer.start_service_time = t` of the object with id `cid`. -/
def setStart (cid : ℕ) (t : ℚ) (cs : List Customer) : List Customer :=
  cs.map fun c => if c.id = cid then { c with start_service_time := some t } else c

/-- Mutation `customer.departure_time = t` of the object with id `cid`. -/
def setDeparture (cid : ℕ) (t : ℚ) (cs : List Customer) : List Customer :=
  cs.map fun c => if c.id = cid then { c with departure_time := some t } else c

/-- Mutation `customer.balked = True` of the object with id `cid`. -/
def setBalked (cid : ℕ) (cs : List Customer) : List Customer :=
  cs.map fun c => if c.id = cid then { c with balked := true } else c

/-- Mutation `customer.service_time = customer.service_time * eff`. -/
def scaleService (cid : ℕ) (eff : ℚ) (cs : List Customer) : List Customer :=
  cs.map fun c => if c.id = cid then { c with service_time := c.service_time * eff } else c

/-- `exponential_random(rate)`: consumes one draw of the exponential stream
(the oracle already accounts for the division by the rate constant). -/
def exponential_random (o : Oracle) (s : PickupPoint) : ℚ × PickupPoint :=
  (o.expGap s.nExp, { s with nExp := s.nExp + 1 })

/-- `schedule_arrival(time)`: creates the `Customer` (drawing its service time
and channel preference), appends it to `all_customers` and inserts an arrival
event. -/
def schedule_arrival (o : Oracle) (t : ℚ) (s : PickupPoint) : PickupPoint :=
  let svc := max (1/10) (o.serviceNormal s.nNorm)
  let selfS : Bool := o.prefU s.nPref < SELF_SERVICE_PROB
  let c : Customer :=
    { id := s.total_customers, arrival_time := t, start_service_time := none,
      departure_time := none, service_time := svc, is_self_service := selfS,
      balked := false }
  { s with total_customers := s.total_customers + 1,
           all_customers := s.all_customers ++ [c],
           events := s.events ++ [⟨t, EventType.arrival, c.id⟩],
           nNorm := s.nNorm + 1, nPref := s.nPref + 1 }

/-- `schedule_departure(time, customer)`: sets `customer.departure_time = time`
at scheduling time and inserts a departure event. -/
def schedule_departure (t : ℚ) (cid : ℕ) (s : PickupPoint) : PickupPoint :=
  { s with all_customers := setDeparture cid t s.all_customers,
           events := s.events ++ [⟨t, EventType.departure, cid⟩] }

/-- `schedule_balk(time, customer)`: sets `customer.balked = True`, counts the
balked customer, and inserts a balk event. -/
def schedule_balk (t : ℚ) (cid : ℕ) (s : PickupPoint) : PickupPoint :=
  { s with all_customers := setBalked cid s.all_customers,
           balked_customers := s.balked_customers + 1,
           events := s.events ++ [⟨t, EventType.balk, cid⟩] }

/-- `will_customer_balk(is_self_service)`: balking probability grows with the
matching queue length and is capped at 0.5; one uniform draw decides. -/
def will_customer_balk (o : Oracle) (isSelf : Bool) (s : PickupPoint) :
    Bool × PickupPoint :=
  let queue_length : ℕ :=
    if isSelf then s.self_service_queue.length else s.employee_queue.length
  let balking_prob := BAULK_PROBABILITY + (queue_length : ℚ) * (1/50)
  (decide (o.balkU s.nBalk < min balking_prob (1/2)), { s with nBalk := s.nBalk + 1 })

/-- Index of the first zone of minimal load (`min(self.zones, key=load)`
returns the first minimum of the iteration order). -/
def argminLoad : List Zone → ℕ
  | [] => 0
  | z :: zs =>
    let i := argminLoad zs
    if z.load ≤ (zs.getD i ⟨0, z.load, 1⟩).load then 0 else i + 1

/-- `bee_algorithm_select_zone`: `None` when there are no zones, otherwise the
index of the first zone of minimal load. -/
def bee_algorithm_select_zone (s : PickupPoint) : Option ℕ :=
  match s.zones with
  | none => none
  | some zs => if zs.isEmpty then none else some (argminLoad zs)

/-- `zone.load += 1` on the i-th zone. -/
def bumpLoad : ℕ → List Zone → List Zone
  | _, [] => []
  | 0, z :: zs => { z with load := z.load + 1 } :: zs
  | n + 1, z :: zs => z :: bumpLoad n zs

/-- The zone-selection block shared by `handle_arrival` and
`handle_departure`: select the best zone; if one exists, scale the customer's
service time by its efficiency and increment its load. -/
def applyBee (cid : ℕ) (s : PickupPoint) : PickupPoint :=
  match bee_algorithm_select_zone s with
  | none => s
  | some i =>
    let zs := s.zones.getD []
    let eff := (zs.getD i ⟨0, 0, 1⟩).efficiency
    { s with all_customers := scaleService cid eff s.all_customers,
             zones := some (bumpLoad i zs) }

/-- `for zone in zones: if zone.load > 0: zone.load -= 1; break`. -/
def decFirstPositive : List Zone → List Zone
  | [] => []
  | z :: zs =>
    if z.load > 0 then { z with load := z.load - 1 } :: zs
    else z :: decFirstPositive zs

/-- The zone-release block of `handle_departure` (guarded by
`use_bee_algorithm and self.zones`; an absent or empty zone list is left
unchanged, exactly as the skipped loop leaves it). -/
def releaseZone (s : PickupPoint) : PickupPoint :=
  if s.use_bee_algorithm then
    match s.zones with
    | none => s
    | some zs => { s with zones := some (decFirstPositive zs) }
  else s

/-- The departure-scheduling tail shared by all three service-start sites:
re-read `customer.service_time`, add a uniform delay with probability
`DELAY_PROBABILITY` (the uniform draw is consumed only when the Bernoulli
draw succeeds, as in the source), and schedule the departure at
`self.time + service_time`. -/
def scheduleServiceDeparture (o : Oracle) (cid : ℕ) (s : PickupPoint) :
    PickupPoint :=
  let c := cust s cid
  let hasDelay : Bool := o.delayU s.nDelay < DELAY_PROBABILITY
  let s := { s with nDelay := s.nDelay + 1 }
  if hasDelay then
    let svc := c.service_time + o.delayAmount s.nDelayAmt
    schedule_departure (s.time + svc) cid { s with nDelayAmt := s.nDelayAmt + 1 }
  else
    schedule_departure (s.time + c.service_time) cid s

/-- The capacity-check tail of `handle_arrival`, after the balk check and the
zone-selection block: immediate service when the matching channel has
available capacity (the customer's possibly-scaled `service_time` is re-read
from the record), otherwise append to the matching FIFO waiting line. -/
def serveOrQueue (o : Oracle) (cid : ℕ) (s : PickupPoint) : PickupPoint :=
  let c := cust s cid
  if c.is_self_service && decide (s.available_self_service > 0) then
    scheduleServiceDeparture o cid
      { s with available_self_service := s.available_self_service - 1,
               all_customers := setStart cid s.time s.all_customers }
  else if !c.is_self_service && decide (s.available_employees > 0) then
    scheduleServiceDeparture o cid
      { s with available_employees := s.available_employees - 1,
               all_customers := setStart cid s.time s.all_customers }
  else
    if c.is_self_service then
      { s with self_service_queue := s.self_service_queue ++ [cid],
               enqLogSelf := s.enqLogSelf ++ [cid] }
    else
      { s with employee_queue := s.employee_queue ++ [cid],
               enqLogEmp := s.enqLogEmp ++ [cid] }

/-- `handle_arrival(customer)`: balk check first; then the zone-selection
block (bee policy on and staff-assisted customer) — note the source runs it
before knowing whether a server is free; then the capacity check of
`serveOrQueue`. -/
def handle_arrival (o : Oracle) (cid : ℕ) (s : PickupPoint) : PickupPoint :=
  let c := cust s cid
  let br := will_customer_balk o c.is_self_service s
  if br.1 then
    schedule_balk br.2.time cid br.2
  else
    let s := br.2
    serveOrQueue o cid
      (if s.use_bee_algorithm && !c.is_self_service then applyBee cid s else s)

/-- The dequeue block of `handle_departure` for the self-service channel: if
the self-service waiting line is non-empty, pop its head, start its service
now (running the zone-selection block whenever the bee policy is on — the
source does not check the channel here) and schedule its departure. -/
def dequeue_self (o : Oracle) (s : PickupPoint) : PickupPoint :=
  match s.self_service_queue with
  | [] => s
  | next :: rest =>
    let s := { s with self_service_queue := rest,
                      deqLogSelf := s.deqLogSelf ++ [next],
                      all_customers := setStart next s.time s.all_customers }
    let s := if s.use_bee_algorithm then applyBee next s else s
    scheduleServiceDeparture o next s

/-- The dequeue block of `handle_departure` for the staff channel. -/
def dequeue_emp (o : Oracle) (s : PickupPoint) : PickupPoint :=
  match s.employee_queue with
  | [] => s
  | next :: rest =>
    let s := { s with employee_queue := rest,
                      deqLogEmp := s.deqLogEmp ++ [next],
                      all_customers := setStart next s.time s.all_customers }
    let s := if s.use_bee_algorithm then applyBee next s else s
    scheduleServiceDeparture o next s

/-- `handle_departure(customer)`: free the channel the departing customer
used, release one positive-load zone when the bee policy is on, and run the
matching dequeue block. -/
def handle_departure (o : Oracle) (cid : ℕ) (s : PickupPoint) : PickupPoint :=
  let c := cust s cid
  if c.is_self_service then
    dequeue_self o (releaseZone
      { s with available_self_service := s.available_self_service + 1 })
  else
    dequeue_emp o (releaseZone
      { s with available_employees := s.available_employees + 1 })

/-- Extraction of the leftmost minimal-time event (the dispatch order of the
source's stable in-place sort followed by `pop(0)`); the remaining events keep
their relative order. -/
def extractMin : List Event → Option (Event × List Event)
  | [] => none
  | e :: es =>
    match extractMin es with
    | none => some (e, [])
    | some (m, rest) =>
      if e.time ≤ m.time then some (e, es) else some (m, e :: rest)

/-- One iteration of the `while self.events and self.time < simulation_time`
loop of `run_simulation`: `none` when the loop guard fails, otherwise the
state after extracting, clock-advancing and dispatching one event (an arrival
also eagerly schedules the next arrival when it falls inside the horizon). -/
def step (o : Oracle) (simulation_time : ℚ) (s : PickupPoint) :
    Option PickupPoint :=
  match s.events with
  | [] => none
  | e0 :: es0 =>
    if s.time < simulation_time then
      match extractMin (e0 :: es0) with
      | none => none
      | some (e, rest) =>
        let s := { s with events := rest, time := e.time }
        match e.type with
        | EventType.arrival =>
          let s := handle_arrival o e.customer s
          let er := exponential_random o s
          let next_arrival_time := er.2.time + er.1
          if next_arrival_time < simulation_time then
            some (schedule_arrival o next_arrival_time er.2)
          else
            some er.2
        | EventType.departure => some (handle_departure o e.customer s)
        | EventType.balk => some s
    else none

/-- Iterate `step` until the loop guard fails or the fuel runs out.  The
source's loop has no structural termination measure (a pathological random
stream sustains it forever), so the embedding makes the iteration count
explicit. -/
def runLoop (o : Oracle) (simulation_time : ℚ) : ℕ → PickupPoint → PickupPoint
  | 0, s => s
  | n + 1, s =>
    match step o simulation_time s with
    | none => s
    | some s' => runLoop o simulation_time n s'

/-- The waiting-time pass after the loop: one entry per customer that started
service and did not balk, in `all_customers` order. -/
def computeWaitingTimes (s : PickupPoint) : PickupPoint :=
  { s with waiting_times :=
      s.all_customers.filterMap fun c =>
        match c.start_service_time with
        | some t => if c.balked then none else some (t - c.arrival_time)
        | none => none }

/-- The state just before the loop of `run_simulation`: the first arrival has
been drawn and scheduled. -/
def initState (o : Oracle) (num_employees num_self_service : ℤ)
    (use_bee : Bool) : PickupPoint :=
  let s := mkPickupPoint num_employees num_self_service use_bee
  let er := exponential_random o s
  schedule_arrival o er.1 er.2

/-- `run_simulation(simulation_time)` with explicit loop fuel. -/
def run_simulation (o : Oracle) (simulation_time : ℚ) (fuel : ℕ)
    (s : PickupPoint) : PickupPoint :=
  let er := exponential_random o s
  computeWaitingTimes (runLoop o simulation_time fuel (schedule_arrival o er.1 er.2))

/-- `run_scenario(...)`: seeding `random.seed(42)` fixes the draw streams, so
the seeded source appears here as the `Oracle` argument. -/
def run_scenario (o : Oracle) (num_employees num_self_service : ℤ)
    (use_bee : Bool) (simulation_time : ℚ) (fuel : ℕ) : PickupPoint :=
  run_simulation o simulation_time fuel
    (mkPickupPoint num_employees num_self_service use_bee)

/-- The `customers_served` aggregate of `analyze_results`: customers with a
non-null `departure_time`. -/
def customers_served (s : PickupPoint) : ℕ :=
  (s.all_customers.filter fun c => c.departure_time ≠ none).length

/-- The pending events that reference customer `cid`. -/
def evFor (s : PickupPoint) (cid : ℕ) : List Event :=
  s.events.filter fun e => e.customer = cid

/-- Membership of `cid` in either waiting line. -/
def inQueues (s : PickupPoint) (cid : ℕ) : Prop :=
  cid ∈ s.employee_queue ∨ cid ∈ s.self_service_queue

/-! ### Lemmas about `extractMin` -/

lemma extractMin_cons (e : Event) (es : List Event) :
    extractMin (e :: es) =
      match extractMin es with
      | none => some (e, [])
      | some (m, rest) =>
        if e.time ≤ m.time then some (e, es) else some (m, e :: rest) := rfl

lemma extractMin_eq_none {es : List Event} : extractMin es = none ↔ es = [] := by
  cases es with
  | nil => simp [extractMin]
  | cons e es =>
    rw [extractMin_cons]
    cases h : extractMin es with
    | none => simp
    | some p =>
      obtain ⟨m, rest⟩ := p
      by_cases ht : e.time ≤ m.time <;> simp [ht]

/-- The extracted event splits the list: what remains is the rest in the
original order. -/
lemma extractMin_decomp :
    ∀ {es : List Event} {e : Event} {rest : List Event},
      extractMin es = some (e, rest) →
      ∃ l1 l2, es = l1 ++ e :: l2 ∧ rest = l1 ++ l2 := by
  intro es
  induction es with
  | nil => intro e rest h; simp [extractMin] at h
  | cons e0 es ih =>
    intro e rest h
    rw [extractMin_cons] at h
    cases hm : extractMin es with
    | none =>
      rw [hm] at h
      simp only [Option.some.injEq, Prod.mk.injEq] at h
      obtain ⟨he, hr⟩ := h
      refine ⟨[], [], ?_, ?_⟩
      · simp [extractMin_eq_none.mp hm, he]
      · simp [hr.symm]
    | some p =>
      obtain ⟨m, rest0⟩ := p
      rw [hm] at h
      by_cases ht : e0.time ≤ m.time
      · simp only [ht, if_true, Option.some.injEq, Prod.mk.injEq] at h
        obtain ⟨he, hr⟩ := h
        exact ⟨[], es, by simp [he], by simp [hr]⟩
      · simp only [ht, if_false, Option.some.injEq, Prod.mk.injEq] at h
        obtain ⟨he, hr⟩ := h
        obtain ⟨l1, l2, h1, h2⟩ := ih hm
        refine ⟨e0 :: l1, l2, ?_, ?_⟩
        · simp [h1, he]
        · simp [← hr, h2]

/-- The extracted event has the minimal time. -/
lemma extractMin_le :
    ∀ {es : List Event} {e : Event} {rest : List Event},
      extractMin es = some (e, rest) → ∀ e' ∈ es, e.time ≤ e'.time := by
  intro es
  induction es with
  | nil => intro e rest h; simp [extractMin] at h
  | cons e0 es ih =>
    intro e rest h
    rw [extractMin_cons] at h
    cases hm : extractMin es with
    | none =>
      rw [hm] at h
      simp only [Option.some.injEq, Prod.mk.injEq] at h
      obtain ⟨he, _⟩ := h
      intro e' he'
      rcases List.mem_cons.mp he' with h' | h'
      · rw [← he, h']
      · exact absurd h' (by simp [extractMin_eq_none.mp hm])
    | some p =>
      obtain ⟨m, rest0⟩ := p
      rw [hm] at h
      by_cases ht : e0.time ≤ m.time
      · simp only [ht, if_true, Option.some.injEq, Prod.mk.injEq] at h
        obtain ⟨he, _⟩ := h
        intro e' he'
        rcases List.mem_cons.mp he' with h' | h'
        · rw [← he, h']
        · exact le_trans (by rw [← he]; exact ht) (ih hm e' h')
      · simp only [ht, if_false, Option.some.injEq, Prod.mk.injEq] at h
        obtain ⟨he, _⟩ := h
        intro e' he'
        rcases List.mem_cons.mp he' with h' | h'
        · rw [← he, h']; exact le_of_lt (lt_of_not_le ht)
        · rw [← he]; exact ih hm e' h'

lemma extractMin_mem {es : List Event} {e : Event} {rest : List Event}
    (h : extractMin es = some (e, rest)) : e ∈ es := by
  obtain ⟨l1, l2, h1, _⟩ := extractMin_decomp h
  simp [h1]

lemma extractMin_rest_subset {es : List Event} {e : Event} {rest : List Event}
    (h : extractMin es = some (e, rest)) : ∀ e' ∈ rest, e' ∈ es := by
  obtain ⟨l1, l2, h1, h2⟩ := extractMin_decomp h
  intro e' he'
  rw [h2] at he'
  rw [h1]
  rcases List.mem_append.mp he' with h' | h'
  · exact List.mem_append.mpr (Or.inl h')
  · exact List.mem_append.mpr (Or.inr (List.mem_cons_of_mem _ h'))

/-! ### Lemmas about the zone helpers -/

lemma argminLoad_lt_length : ∀ {zs : List Zone}, zs ≠ [] → argminLoad zs < zs.length := by
  intro zs
  induction zs with
  | nil => intro h; exact absurd rfl h
  | cons z zs ih =>
    intro _
    simp only [argminLoad]
    split
    · simp
    · next h =>
      have hzs : zs ≠ [] := by
        intro hnil
        subst hnil
        simp [argminLoad] at h
      have := ih hzs
      simp only [List.length_cons]
      omega

lemma bumpLoad_eff {zs : List Zone} (hz : ∀ z ∈ zs, z.efficiency = 1) :
    ∀ i, ∀ z ∈ bumpLoad i zs, z.efficiency = 1 := by
  induction zs with
  | nil => intro i z hz'; simp [bumpLoad] at hz'
  | cons z0 zs ih =>
    intro i z hz'
    cases i with
    | zero =>
      rw [bumpLoad] at hz'
      rcases List.mem_cons.mp hz' with h | h
      · rw [h]; exact hz z0 (List.mem_cons_self _ _)
      · exact hz z (List.mem_cons_of_mem _ h)
    | succ n =>
      rw [bumpLoad] at hz'
      rcases List.mem_cons.mp hz' with h | h
      · rw [h]; exact hz z0 (List.mem_cons_self _ _)
      · exact ih (fun w hw => hz w (List.mem_cons_of_mem _ hw)) n z h

lemma decFirstPositive_eff {zs : List Zone} (hz : ∀ z ∈ zs, z.efficiency = 1) :
    ∀ z ∈ decFirstPositive zs, z.efficiency = 1 := by
  induction zs with
  | nil => intro z hz'; simp [decFirstPositive] at hz'
  | cons z0 zs ih =>
    intro z hz'
    rw [decFirstPositive] at hz'
    by_cases h : z0.load > 0
    · simp only [h, if_true] at hz'
      rcases List.mem_cons.mp hz' with h' | h'
      · rw [h']; exact hz z0 (List.mem_cons_self _ _)
      · exact hz z (List.mem_cons_of_mem _ h')
    · simp only [h, if_false] at hz'
      rcases List.mem_cons.mp hz' with h' | h'
      · rw [h']; exact hz z0 (List.mem_cons_self _ _)
      · exact ih (fun w hw => hz w (List.mem_cons_of_mem _ hw)) z h'

/-! ### Lemmas about by-id customer updates -/

/-- Customer ids coincide with list positions (true in every reachable
state). -/
def idsAligned (cs : List Customer) : Prop :=
  ∀ i, ∀ h : i < cs.length, (cs.get ⟨i, h⟩).id = i

lemma getD_updId_ne {cs : List Customer} (hids : idsAligned cs)
    (F : Customer → Customer) {cid j : ℕ} (hne : j ≠ cid) :
    (cs.map fun c => if c.id = cid then F c else c).getD j default =
      cs.getD j default := by
  by_cases hj : j < cs.length
  · have hid : cs[j].id = j := by simpa using hids j hj
    rw [List.getD_eq_getElem?_getD, List.getD_eq_getElem?_getD,
      List.getElem?_map, List.getElem?_eq_getElem hj]
    simp [hid, hne]
  · rw [List.getD_eq_getElem?_getD, List.getD_eq_getElem?_getD,
      List.getElem?_map,
      List.getElem?_eq_none (by simpa using le_of_not_lt hj)]
    rfl

lemma getD_updId_eq {cs : List Customer} (hids : idsAligned cs)
    (F : Customer → Customer) {cid : ℕ} (h : cid < cs.length) :
    (cs.map fun c => if c.id = cid then F c else c).getD cid default =
      F (cs.getD cid default) := by
  have hid : cs[cid].id = cid := by simpa using hids cid h
  rw [List.getD_eq_getElem?_getD, List.getD_eq_getElem?_getD,
    List.getElem?_map, List.getElem?_eq_getElem h]
  simp [hid]

lemma idsAligned_updId {cs : List Customer} (hids : idsAligned cs)
    {F : Customer → Customer} (hF : ∀ c, (F c).id = c.id) (cid : ℕ) :
    idsAligned (cs.map fun c => if c.id = cid then F c else c) := by
  intro i h
  rw [List.length_map] at h
  have hid : cs[i].id = i := by simpa using hids i h
  rw [List.get_eq_getElem]
  simp only [List.getElem_map]
  by_cases hc : (cs[i]).id = cid
  · rw [if_pos hc, hF]; exact hid
  · rw [if_neg hc]; exact hid

lemma forall_mem_updId {cs : List Customer} {F : Customer → Customer}
    {P : Customer → Prop} (hP : ∀ c ∈ cs, P c) (hF : ∀ c ∈ cs, P (F c))
    (cid : ℕ) : ∀ c' ∈ (cs.map fun c => if c.id = cid then F c else c), P c' := by
  intro c' hc'
  obtain ⟨c, hc, rfl⟩ := List.mem_map.mp hc'
  by_cases h : c.id = cid
  · rw [if_pos h]; exact hF c hc
  · rw [if_neg h]; exact hP c hc

lemma idsAligned_append {cs : List Customer} (hids : idsAligned cs)
    {c : Customer} (hc : c.id = cs.length) : idsAligned (cs ++ [c]) := by
  intro i h
  rw [List.length_append, List.length_singleton] at h
  rw [List.get_eq_getElem]
  by_cases hi : i < cs.length
  · have := hids i hi
    rw [List.get_eq_getElem] at this
    simpa [List.getElem_append_left hi] using this
  · have hieq : i = cs.length := by omega
    subst hieq
    simp [List.getElem_append_right (le_refl cs.length), hc]

lemma getD_append_lt {cs cs' : List Customer} {j : ℕ} (h : j < cs.length) :
    (cs ++ cs').getD j default = cs.getD j default := by
  rw [List.getD_eq_getElem?_getD, List.getD_eq_getElem?_getD,
    List.getElem?_append_left h]

lemma getD_append_self {cs : List Customer} {c : Customer} :
    (cs ++ [c]).getD cs.length default = c := by
  rw [List.getD_eq_getElem?_getD, List.getElem?_append_right (le_refl _)]
  simp

lemma getD_ge_length {cs : List Customer} {j : ℕ} (h : cs.length ≤ j) :
    cs.getD j default = default := by
  rw [List.getD_eq_getElem?_getD, List.getElem?_eq_none (by simpa using h)]
  rfl

lemma getD_mem {cs : List Customer} {j : ℕ} (h : j < cs.length) :
    cs.getD j default ∈ cs := by
  rw [List.getD_eq_getElem?_getD, List.getElem?_eq_getElem h]
  exact List.getElem_mem h

/-! ### The run invariant -/

/-- The status-relevant fields of a customer record (everything except the
mutable `service_time`). -/
def eqCore (c c' : Customer) : Prop :=
  c.arrival_time = c'.arrival_time ∧
  c.start_service_time = c'.start_service_time ∧
  c.departure_time = c'.departure_time ∧
  c.balked = c'.balked ∧
  c.is_self_service = c'.is_self_service

lemma eqCore_refl (c : Customer) : eqCore c c := ⟨rfl, rfl, rfl, rfl, rfl⟩

lemma getD_updId_core {cs : List Customer} (hids : idsAligned cs)
    {F : Customer → Customer} (hF : ∀ c, eqCore (F c) c) (cid : ℕ) :
    ∀ j, eqCore ((cs.map fun c => if c.id = cid then F c else c).getD j default)
      (cs.getD j default) := by
  intro j
  by_cases hj : j = cid
  · subst hj
    by_cases hl : j < cs.length
    · rw [getD_updId_eq hids F hl]; exact hF _
    · rw [getD_ge_length (by simpa using le_of_not_lt hl),
        getD_ge_length (le_of_not_lt hl)]
      exact eqCore_refl _
  · rw [getD_updId_ne hids F hj]; exact eqCore_refl _

/-- The status automaton of one customer, as seen in the engine state.  A
customer is in exactly one of: (a) its arrival event is pending; (g) its
arrival event is being handled right now (a transient state inside `step`);
(b) it waits in the line matching its channel; (c) it is in service with its
departure event pending; (d) it balked and its (no-op) balk event is pending;
(e) it balked and the balk event has been consumed; (f) its departure event
has fired. -/
def StatusOK (s : PickupPoint) (cid : ℕ) : Prop :=
  (evFor s cid = [⟨(cust s cid).arrival_time, EventType.arrival, cid⟩] ∧
    (cust s cid).start_service_time = none ∧
    (cust s cid).departure_time = none ∧
    (cust s cid).balked = false ∧ ¬ inQueues s cid) ∨
  (evFor s cid = [] ∧ (cust s cid).start_service_time = none ∧
    (cust s cid).departure_time = none ∧ (cust s cid).balked = false ∧
    ¬ inQueues s cid ∧ (cust s cid).arrival_time ≤ s.time) ∨
  (evFor s cid = [] ∧
    cid ∈ (if (cust s cid).is_self_service then s.self_service_queue
           else s.employee_queue) ∧
    (cust s cid).start_service_time = none ∧
    (cust s cid).departure_time = none ∧ (cust s cid).balked = false ∧
    (cust s cid).arrival_time ≤ s.time) ∨
  (∃ t d, evFor s cid = [⟨d, EventType.departure, cid⟩] ∧
    (cust s cid).start_service_time = some t ∧
    (cust s cid).departure_time = some d ∧ (cust s cid).balked = false ∧
    ¬ inQueues s cid ∧ (cust s cid).arrival_time ≤ t ∧ t ≤ d ∧ t ≤ s.time) ∨
  (∃ b, evFor s cid = [⟨b, EventType.balk, cid⟩] ∧
    (cust s cid).balked = true ∧ (cust s cid).start_service_time = none ∧
    (cust s cid).departure_time = none ∧ ¬ inQueues s cid) ∨
  (evFor s cid = [] ∧ (cust s cid).balked = true ∧
    (cust s cid).start_service_time = none ∧
    (cust s cid).departure_time = none ∧ ¬ inQueues s cid) ∨
  (∃ t d, evFor s cid = [] ∧ (cust s cid).start_service_time = some t ∧
    (cust s cid).departure_time = some d ∧ (cust s cid).balked = false ∧
    ¬ inQueues s cid ∧ (cust s cid).arrival_time ≤ t ∧ t ≤ d ∧ t ≤ s.time)

/-- The invariant of every state reached by the run loop. -/
structure Inv (s : PickupPoint) : Prop where
  len_eq : s.all_customers.length = s.total_customers
  ids : idsAligned s.all_customers
  ev_valid : ∀ e ∈ s.events, e.customer < s.total_customers
  ev_time : ∀ e ∈ s.events, s.time ≤ e.time
  q_emp : ∀ x ∈ s.employee_queue,
    x < s.total_customers ∧ (cust s x).is_self_service = false
  q_self : ∀ x ∈ s.self_service_queue,
    x < s.total_customers ∧ (cust s x).is_self_service = true
  q_emp_nodup : s.employee_queue.Nodup
  q_self_nodup : s.self_service_queue.Nodup
  svc_floor : ∀ c ∈ s.all_customers, (1:ℚ)/10 ≤ c.service_time
  zones_eff : ∀ zs, s.zones = some zs → ∀ z ∈ zs, z.efficiency = 1
  log_emp : s.enqLogEmp = s.deqLogEmp ++ s.employee_queue
  log_self : s.enqLogSelf = s.deqLogSelf ++ s.self_service_queue
  status : ∀ cid, cid < s.total_customers → StatusOK s cid

/-- The invariant with the status of one customer (the one being handled)
exempted. -/
structure InvExcept (s : PickupPoint) (cid : ℕ) : Prop where
  len_eq : s.all_customers.length = s.total_customers
  ids : idsAligned s.all_customers
  ev_valid : ∀ e ∈ s.events, e.customer < s.total_customers
  ev_time : ∀ e ∈ s.events, s.time ≤ e.time
  q_emp : ∀ x ∈ s.employee_queue,
    x < s.total_customers ∧ (cust s x).is_self_service = false
  q_self : ∀ x ∈ s.self_service_queue,
    x < s.total_customers ∧ (cust s x).is_self_service = true
  q_emp_nodup : s.employee_queue.Nodup
  q_self_nodup : s.self_service_queue.Nodup
  svc_floor : ∀ c ∈ s.all_customers, (1:ℚ)/10 ≤ c.service_time
  zones_eff : ∀ zs, s.zones = some zs → ∀ z ∈ zs, z.efficiency = 1
  log_emp : s.enqLogEmp = s.deqLogEmp ++ s.employee_queue
  log_self : s.enqLogSelf = s.deqLogSelf ++ s.self_service_queue
  status : ∀ j, j < s.total_customers → j ≠ cid → StatusOK s j

lemma Inv.toExcept {s : PickupPoint} (h : Inv s) (cid : ℕ) : InvExcept s cid :=
  ⟨h.len_eq, h.ids, h.ev_valid, h.ev_time, h.q_emp, h.q_self, h.q_emp_nodup,
   h.q_self_nodup, h.svc_floor, h.zones_eff, h.log_emp, h.log_self,
   fun j hj _ => h.status j hj⟩

lemma InvExcept.toInv {s : PickupPoint} {cid : ℕ} (h : InvExcept s cid)
    (hc : StatusOK s cid) : Inv s :=
  ⟨h.len_eq, h.ids, h.ev_valid, h.ev_time, h.q_emp, h.q_self, h.q_emp_nodup,
   h.q_self_nodup, h.svc_floor, h.zones_eff, h.log_emp, h.log_self,
   fun j hj => by
     by_cases hje : j = cid
     · rw [hje]; exact hc
     · exact h.status j hj hje⟩

/-- `StatusOK` transports along any state change that keeps the customer's
core fields, its pending events and its queue membership, and does not move
the clock backwards. -/
lemma StatusOK_mono {s s' : PickupPoint} {cid : ℕ}
    (hcore : eqCore (cust s' cid) (cust s cid))
    (hev : evFor s' cid = evFor s cid)
    (hq1 : cid ∈ s'.employee_queue ↔ cid ∈ s.employee_queue)
    (hq2 : cid ∈ s'.self_service_queue ↔ cid ∈ s.self_service_queue)
    (ht : s.time ≤ s'.time) :
    StatusOK s cid → StatusOK s' cid := by
  obtain ⟨ha, hst, hdp, hbk, hsf⟩ := hcore
  have hq : inQueues s' cid ↔ inQueues s cid := by
    rw [inQueues, inQueues, hq1, hq2]
  intro h
  rcases h with ⟨h1, h2, h3, h4, h5⟩ | ⟨h1, h2, h3, h4, h5, h6⟩ |
    ⟨h1, h2, h3, h4, h5, h6⟩ | ⟨t, d, h1, h2, h3, h4, h5, h6, h7, h8⟩ |
    ⟨b, h1, h2, h3, h4, h5⟩ | ⟨h1, h2, h3, h4, h5⟩ |
    ⟨t, d, h1, h2, h3, h4, h5, h6, h7, h8⟩
  · exact Or.inl ⟨by rw [hev, ha, h1], by rw [hst, h2], by rw [hdp, h3],
      by rw [hbk, h4], by rw [hq]; exact h5⟩
  · exact Or.inr (Or.inl ⟨by rw [hev, h1], by rw [hst, h2], by rw [hdp, h3],
      by rw [hbk, h4], by rw [hq]; exact h5, by rw [ha]; exact le_trans h6 ht⟩)
  · refine Or.inr (Or.inr (Or.inl ⟨by rw [hev, h1], ?_, by rw [hst, h3],
      by rw [hdp, h4], by rw [hbk, h5], by rw [ha]; exact le_trans h6 ht⟩))
    rw [hsf]
    cases hsel : (cust s cid).is_self_service with
    | false => rw [hsel] at h2; simpa [hq1.symm] using h2
    | true => rw [hsel] at h2; simpa [hq2.symm] using h2
  · exact Or.inr (Or.inr (Or.inr (Or.inl ⟨t, d, by rw [hev, h1],
      by rw [hst, h2], by rw [hdp, h3], by rw [hbk, h4],
      by rw [hq]; exact h5, by rw [ha]; exact h6, h7, le_trans h8 ht⟩)))
  · exact Or.inr (Or.inr (Or.inr (Or.inr (Or.inl ⟨b, by rw [hev, h1],
      by rw [hbk, h2], by rw [hst, h3], by rw [hdp, h4],
      by rw [hq]; exact h5⟩))))
  · exact Or.inr (Or.inr (Or.inr (Or.inr (Or.inr (Or.inl ⟨by rw [hev, h1],
      by rw [hbk, h2], by rw [hst, h3], by rw [hdp, h4],
      by rw [hq]; exact h5⟩)))))
  · exact Or.inr (Or.inr (Or.inr (Or.inr (Or.inr (Or.inr ⟨t, d,
      by rw [hev, h1], by rw [hst, h2], by rw [hdp, h3], by rw [hbk, h4],
      by rw [hq]; exact h5, by rw [ha]; exact h6, h7, le_trans h8 ht⟩)))))

/-! ### Preservation of the invariant by each transition -/

lemma inv_schedule_arrival (o : Oracle) {s : PickupPoint} {t : ℚ}
    (hInv : Inv s) (ht : s.time ≤ t) : Inv (schedule_arrival o t s) := by
  have hlen : s.all_customers.length = s.total_customers := hInv.len_eq
  set s' := schedule_arrival o t s with hs'
  have hA : s'.all_customers = s.all_customers ++
      [⟨s.total_customers, t, none, none,
        max (1/10) (o.serviceNormal s.nNorm),
        decide (o.prefU s.nPref < SELF_SERVICE_PROB), false⟩] := rfl
  have hE : s'.events =
      s.events ++ [⟨t, EventType.arrival, s.total_customers⟩] := rfl
  have hT : s'.time = s.time := rfl
  have htot : s'.total_customers = s.total_customers + 1 := rfl
  have hQ1 : s'.employee_queue = s.employee_queue := rfl
  have hQ2 : s'.self_service_queue = s.self_service_queue := rfl
  have hZ : s'.zones = s.zones := rfl
  have hL1 : s'.enqLogEmp = s.enqLogEmp := rfl
  have hL2 : s'.deqLogEmp = s.deqLogEmp := rfl
  have hL3 : s'.enqLogSelf = s.enqLogSelf := rfl
  have hL4 : s'.deqLogSelf = s.deqLogSelf := rfl
  have hcust_lt : ∀ j, j < s.total_customers → cust s' j = cust s j := by
    intro j hj
    rw [cust, cust, hA]
    exact getD_append_lt (by omega)
  have hcust_new : cust s' s.total_customers =
      ⟨s.total_customers, t, none, none,
        max (1/10) (o.serviceNormal s.nNorm),
        decide (o.prefU s.nPref < SELF_SERVICE_PROB), false⟩ := by
    rw [cust, hA, ← hlen]
    exact getD_append_self
  have hevFor_lt : ∀ j, j ≠ s.total_customers → evFor s' j = evFor s j := by
    intro j hj
    rw [evFor, evFor, hE, List.filter_append]
    simp [Ne.symm hj]
  constructor
  · rw [hA, htot, List.length_append, List.length_singleton, hlen]
  · rw [hA]
    exact idsAligned_append hInv.ids (by simpa using hlen.symm)
  · intro e he
    rw [hE] at he
    rw [htot]
    rcases List.mem_append.mp he with h | h
    · exact lt_trans (hInv.ev_valid e h) (by omega)
    · simp at h; rw [h]; simp
  · intro e he
    rw [hE] at he
    rw [hT]
    rcases List.mem_append.mp he with h | h
    · exact hInv.ev_time e h
    · simp at h; rw [h]; exact ht
  · intro x hx
    rw [hQ1] at hx
    obtain ⟨h1, h2⟩ := hInv.q_emp x hx
    rw [htot]
    exact ⟨by omega, by rw [hcust_lt x h1]; exact h2⟩
  · intro x hx
    rw [hQ2] at hx
    obtain ⟨h1, h2⟩ := hInv.q_self x hx
    rw [htot]
    exact ⟨by omega, by rw [hcust_lt x h1]; exact h2⟩
  · rw [hQ1]; exact hInv.q_emp_nodup
  · rw [hQ2]; exact hInv.q_self_nodup
  · intro c hc
    rw [hA] at hc
    rcases List.mem_append.mp hc with h | h
    · exact hInv.svc_floor c h
    · simp only [List.mem_singleton] at h
      rw [h]
      exact le_max_left _ _
  · rw [hZ]; exact hInv.zones_eff
  · rw [hL1, hL2, hQ1]; exact hInv.log_emp
  · rw [hL3, hL4, hQ2]; exact hInv.log_self
  · intro cid hcid
    rw [htot] at hcid
    by_cases hj : cid = s.total_customers
    · subst hj
      refine Or.inl ⟨?_, ?_, ?_, ?_, ?_⟩
      · rw [evFor, hE, List.filter_append]
        have h0 : List.filter (fun e => e.customer = s.total_customers)
            s.events = [] := by
          rw [List.filter_eq_nil_iff]
          intro e he
          simpa using ne_of_lt (hInv.ev_valid e he)
        rw [h0, hcust_new]
        simp
      · rw [hcust_new]
      · rw [hcust_new]
      · rw [hcust_new]
      · intro hq
        rcases hq with h | h
        · rw [hQ1] at h
          exact absurd (hInv.q_emp _ h).1 (lt_irrefl _)
        · rw [hQ2] at h
          exact absurd (hInv.q_self _ h).1 (lt_irrefl _)
    · have hlt : cid < s.total_customers := by omega
      refine StatusOK_mono ?_ (hevFor_lt cid hj) (by rw [hQ1]) (by rw [hQ2])
        (by rw [hT]) (hInv.status cid hlt)
      rw [hcust_lt cid hlt]
      exact eqCore_refl _

/-- The transient state of a customer whose arrival event has just been
consumed, before `handle_arrival` settles it. -/
def Limbo (s : PickupPoint) (cid : ℕ) : Prop :=
  cid < s.total_customers ∧ evFor s cid = [] ∧
  (cust s cid).start_service_time = none ∧
  (cust s cid).departure_time = none ∧ (cust s cid).balked = false ∧
  ¬ inQueues s cid ∧ (cust s cid).arrival_time ≤ s.time

/-- The transient state of a customer whose service has just started, before
its departure is scheduled. -/
def Started (s : PickupPoint) (cid : ℕ) : Prop :=
  cid < s.total_customers ∧ evFor s cid = [] ∧
  ∃ t, (cust s cid).start_service_time = some t ∧
    (cust s cid).departure_time = none ∧ (cust s cid).balked = false ∧
    ¬ inQueues s cid ∧ (cust s cid).arrival_time ≤ t ∧ t ≤ s.time

/-- Transport of `InvExcept` along a state change that can touch the
availability counters, the draw counters, the excepted customer's mutable
fields (except its channel flag), every customer's `service_time`, and the
zone loads. -/
lemma invExcept_transport {s s' : PickupPoint} {cid : ℕ} (h : InvExcept s cid)
    (hlen : s'.all_customers.length = s.all_customers.length)
    (hids : idsAligned s'.all_customers)
    (hcust : ∀ j, j ≠ cid → cust s' j = cust s j)
    (hself : (cust s' cid).is_self_service = (cust s cid).is_self_service)
    (hsvc : ∀ c ∈ s'.all_customers, (1:ℚ)/10 ≤ c.service_time)
    (hE : s'.events = s.events) (hT : s'.time = s.time)
    (htot : s'.total_customers = s.total_customers)
    (hQ1 : s'.employee_queue = s.employee_queue)
    (hQ2 : s'.self_service_queue = s.self_service_queue)
    (hze : ∀ zs, s'.zones = some zs → ∀ z ∈ zs, z.efficiency = 1)
    (hL1 : s'.enqLogEmp = s.enqLogEmp) (hL2 : s'.deqLogEmp = s.deqLogEmp)
    (hL3 : s'.enqLogSelf = s.enqLogSelf) (hL4 : s'.deqLogSelf = s.deqLogSelf) :
    InvExcept s' cid := by
  have hevFor : ∀ j, evFor s' j = evFor s j := by
    intro j; rw [evFor, evFor, hE]
  constructor
  · rw [hlen, htot]; exact h.len_eq
  · exact hids
  · intro e he; rw [hE] at he; rw [htot]; exact h.ev_valid e he
  · intro e he; rw [hE] at he; rw [hT]; exact h.ev_time e he
  · intro x hx
    rw [hQ1] at hx
    obtain ⟨h1, h2⟩ := h.q_emp x hx
    refine ⟨by rw [htot]; exact h1, ?_⟩
    by_cases hxc : x = cid
    · subst hxc; rw [hself]; exact h2
    · rw [hcust x hxc]; exact h2
  · intro x hx
    rw [hQ2] at hx
    obtain ⟨h1, h2⟩ := h.q_self x hx
    refine ⟨by rw [htot]; exact h1, ?_⟩
    by_cases hxc : x = cid
    · subst hxc; rw [hself]; exact h2
    · rw [hcust x hxc]; exact h2
  · rw [hQ1]; exact h.q_emp_nodup
  · rw [hQ2]; exact h.q_self_nodup
  · exact hsvc
  · exact hze
  · rw [hL1, hL2, hQ1]; exact h.log_emp
  · rw [hL3, hL4, hQ2]; exact h.log_self
  · intro j hj hjc
    rw [htot] at hj
    refine StatusOK_mono ?_ (hevFor j) (by rw [hQ1]) (by rw [hQ2])
      (le_of_eq hT.symm) (h.status j hj hjc)
    rw [hcust j hjc]
    exact eqCore_refl _

/-- Transport of the full invariant along a change of availability counters,
draw counters, `service_time` values, and zone loads. -/
lemma inv_transport {s s' : PickupPoint} (h : Inv s)
    (hlen : s'.all_customers.length = s.all_customers.length)
    (hids : idsAligned s'.all_customers)
    (hcore : ∀ j, eqCore (cust s' j) (cust s j))
    (hsvc : ∀ c ∈ s'.all_customers, (1:ℚ)/10 ≤ c.service_time)
    (hE : s'.events = s.events) (hT : s'.time = s.time)
    (htot : s'.total_customers = s.total_customers)
    (hQ1 : s'.employee_queue = s.employee_queue)
    (hQ2 : s'.self_service_queue = s.self_service_queue)
    (hze : ∀ zs, s'.zones = some zs → ∀ z ∈ zs, z.efficiency = 1)
    (hL1 : s'.enqLogEmp = s.enqLogEmp) (hL2 : s'.deqLogEmp = s.deqLogEmp)
    (hL3 : s'.enqLogSelf = s.enqLogSelf) (hL4 : s'.deqLogSelf = s.deqLogSelf) :
    Inv s' := by
  have hevFor : ∀ j, evFor s' j = evFor s j := by
    intro j; rw [evFor, evFor, hE]
  constructor
  · rw [hlen, htot]; exact h.len_eq
  · exact hids
  · intro e he; rw [hE] at he; rw [htot]; exact h.ev_valid e he
  · intro e he; rw [hE] at he; rw [hT]; exact h.ev_time e he
  · intro x hx
    rw [hQ1] at hx
    obtain ⟨h1, h2⟩ := h.q_emp x hx
    exact ⟨by rw [htot]; exact h1, by rw [(hcore x).2.2.2.2]; exact h2⟩
  · intro x hx
    rw [hQ2] at hx
    obtain ⟨h1, h2⟩ := h.q_self x hx
    exact ⟨by rw [htot]; exact h1, by rw [(hcore x).2.2.2.2]; exact h2⟩
  · rw [hQ1]; exact h.q_emp_nodup
  · rw [hQ2]; exact h.q_self_nodup
  · exact hsvc
  · exact hze
  · rw [hL1, hL2, hQ1]; exact h.log_emp
  · rw [hL3, hL4, hQ2]; exact h.log_self
  · intro j hj
    rw [htot] at hj
    exact StatusOK_mono (hcore j) (hevFor j) (by rw [hQ1]) (by rw [hQ2])
      (le_of_eq hT.symm) (h.status j hj)

lemma limbo_transport {s s' : PickupPoint} {cid : ℕ} (h : Limbo s cid)
    (hcore : eqCore (cust s' cid) (cust s cid))
    (hev : evFor s' cid = evFor s cid)
    (hT : s.time ≤ s'.time)
    (htot : s'.total_customers = s.total_customers)
    (hQ1 : cid ∈ s'.employee_queue ↔ cid ∈ s.employee_queue)
    (hQ2 : cid ∈ s'.self_service_queue ↔ cid ∈ s.self_service_queue) :
    Limbo s' cid := by
  obtain ⟨h1, h2, h3, h4, h5, h6, h7⟩ := h
  obtain ⟨ha, hst, hdp, hbk, _⟩ := hcore
  refine ⟨by rw [htot]; exact h1, by rw [hev]; exact h2,
    by rw [hst]; exact h3, by rw [hdp]; exact h4, by rw [hbk]; exact h5,
    ?_, by rw [ha]; exact le_trans h7 hT⟩
  rw [inQueues, hQ1, hQ2]
  exact h6

lemma started_transport {s s' : PickupPoint} {cid : ℕ} (h : Started s cid)
    (hcore : eqCore (cust s' cid) (cust s cid))
    (hev : evFor s' cid = evFor s cid)
    (hT : s.time ≤ s'.time)
    (htot : s'.total_customers = s.total_customers)
    (hQ1 : cid ∈ s'.employee_queue ↔ cid ∈ s.employee_queue)
    (hQ2 : cid ∈ s'.self_service_queue ↔ cid ∈ s.self_service_queue) :
    Started s' cid := by
  obtain ⟨h1, h2, t, h3, h4, h5, h6, h7, h8⟩ := h
  obtain ⟨ha, hst, hdp, hbk, _⟩ := hcore
  refine ⟨by rw [htot]; exact h1, by rw [hev]; exact h2, t,
    by rw [hst]; exact h3, by rw [hdp]; exact h4, by rw [hbk]; exact h5,
    ?_, by rw [ha]; exact h7, le_trans h8 hT⟩
  rw [inQueues, hQ1, hQ2]
  exact h6

lemma inv_schedule_balk {s : PickupPoint} {cid : ℕ}
    (hI : InvExcept s cid) (hL : Limbo s cid) :
    Inv (schedule_balk s.time cid s) := by
  obtain ⟨hcidlt, hev0, hst0, hdp0, hbk0, hq0, har0⟩ := hL
  have hlen : s.all_customers.length = s.total_customers := hI.len_eq
  have hcl : cid < s.all_customers.length := by omega
  set s' := schedule_balk s.time cid s with hs'
  have hA : s'.all_customers = setBalked cid s.all_customers := rfl
  have hE : s'.events = s.events ++ [⟨s.time, EventType.balk, cid⟩] := rfl
  have hT : s'.time = s.time := rfl
  have htot : s'.total_customers = s.total_customers := rfl
  have hQ1 : s'.employee_queue = s.employee_queue := rfl
  have hQ2 : s'.self_service_queue = s.self_service_queue := rfl
  have hZ : s'.zones = s.zones := rfl
  have hL1 : s'.enqLogEmp = s.enqLogEmp := rfl
  have hL2 : s'.deqLogEmp = s.deqLogEmp := rfl
  have hL3 : s'.enqLogSelf = s.enqLogSelf := rfl
  have hL4 : s'.deqLogSelf = s.deqLogSelf := rfl
  have hcust_ne : ∀ j, j ≠ cid → cust s' j = cust s j := by
    intro j hj
    rw [cust, cust, hA, setBalked]
    exact getD_updId_ne hI.ids _ hj
  have hcust_eq : cust s' cid = { cust s cid with balked := true } := by
    rw [cust, cust, hA, setBalked]
    exact getD_updId_eq hI.ids _ hcl
  have hevFor_ne : ∀ j, j ≠ cid → evFor s' j = evFor s j := by
    intro j hj
    rw [evFor, evFor, hE, List.filter_append]
    simp [Ne.symm hj]
  have hevFor_eq : evFor s' cid = [⟨s.time, EventType.balk, cid⟩] := by
    rw [evFor, hE, List.filter_append]
    rw [evFor] at hev0
    rw [hev0]
    simp
  have hqcid1 : cid ∉ s.employee_queue := fun h => hq0 (Or.inl h)
  have hqcid2 : cid ∉ s.self_service_queue := fun h => hq0 (Or.inr h)
  constructor
  · rw [hA, setBalked, List.length_map, htot]; exact hlen
  · rw [hA, setBalked]
    exact idsAligned_updId hI.ids
      (F := fun c => { c with balked := true }) (fun c => rfl) cid
  · intro e he
    rw [hE] at he
    rw [htot]
    rcases List.mem_append.mp he with h | h
    · exact hI.ev_valid e h
    · simp at h; rw [h]; exact hcidlt
  · intro e he
    rw [hE] at he
    rw [hT]
    rcases List.mem_append.mp he with h | h
    · exact hI.ev_time e h
    · simp at h; rw [h]
  · intro x hx
    rw [hQ1] at hx
    obtain ⟨h1, h2⟩ := hI.q_emp x hx
    have hxc : x ≠ cid := fun h => hqcid1 (h ▸ hx)
    exact ⟨by rw [htot]; exact h1, by rw [hcust_ne x hxc]; exact h2⟩
  · intro x hx
    rw [hQ2] at hx
    obtain ⟨h1, h2⟩ := hI.q_self x hx
    have hxc : x ≠ cid := fun h => hqcid2 (h ▸ hx)
    exact ⟨by rw [htot]; exact h1, by rw [hcust_ne x hxc]; exact h2⟩
  · rw [hQ1]; exact hI.q_emp_nodup
  · rw [hQ2]; exact hI.q_self_nodup
  · rw [hA, setBalked]
    exact forall_mem_updId (F := fun c => { c with balked := true })
      hI.svc_floor (fun c hc => hI.svc_floor c hc) cid
  · rw [hZ]; exact hI.zones_eff
  · rw [hL1, hL2, hQ1]; exact hI.log_emp
  · rw [hL3, hL4, hQ2]; exact hI.log_self
  · intro j hj
    rw [htot] at hj
    by_cases hjc : j = cid
    · subst hjc
      refine Or.inr (Or.inr (Or.inr (Or.inr (Or.inl ⟨s.time, hevFor_eq,
        ?_, ?_, ?_, ?_⟩))))
      · rw [hcust_eq]
      · rw [hcust_eq]; exact hst0
      · rw [hcust_eq]; exact hdp0
      · intro hq
        rcases hq with h | h
        · exact hqcid1 (by rw [← hQ1]; exact h)
        · exact hqcid2 (by rw [← hQ2]; exact h)
    · refine StatusOK_mono ?_ (hevFor_ne j hjc) (by rw [hQ1]) (by rw [hQ2])
        (le_of_eq hT.symm) (hI.status j hj hjc)
      rw [hcust_ne j hjc]
      exact eqCore_refl _

lemma inv_schedule_departure {s : PickupPoint} {cid : ℕ} {d : ℚ}
    (hI : InvExcept s cid) (hSt : Started s cid) (hd : s.time ≤ d) :
    Inv (schedule_departure d cid s) := by
  obtain ⟨hcidlt, hev0, t0, hst0, hdp0, hbk0, hq0, har0, hts0⟩ := hSt
  have hlen : s.all_customers.length = s.total_customers := hI.len_eq
  have hcl : cid < s.all_customers.length := by omega
  set s' := schedule_departure d cid s with hs'
  have hA : s'.all_customers = setDeparture cid d s.all_customers := rfl
  have hE : s'.events = s.events ++ [⟨d, EventType.departure, cid⟩] := rfl
  have hT : s'.time = s.time := rfl
  have htot : s'.total_customers = s.total_customers := rfl
  have hQ1 : s'.employee_queue = s.employee_queue := rfl
  have hQ2 : s'.self_service_queue = s.self_service_queue := rfl
  have hZ : s'.zones = s.zones := rfl
  have hL1 : s'.enqLogEmp = s.enqLogEmp := rfl
  have hL2 : s'.deqLogEmp = s.deqLogEmp := rfl
  have hL3 : s'.enqLogSelf = s.enqLogSelf := rfl
  have hL4 : s'.deqLogSelf = s.deqLogSelf := rfl
  have hcust_ne : ∀ j, j ≠ cid → cust s' j = cust s j := by
    intro j hj
    rw [cust, cust, hA, setDeparture]
    exact getD_updId_ne hI.ids _ hj
  have hcust_eq : cust s' cid = { cust s cid with departure_time := some d } := by
    rw [cust, cust, hA, setDeparture]
    exact getD_updId_eq hI.ids _ hcl
  have hevFor_ne : ∀ j, j ≠ cid → evFor s' j = evFor s j := by
    intro j hj
    rw [evFor, evFor, hE, List.filter_append]
    simp [Ne.symm hj]
  have hevFor_eq : evFor s' cid = [⟨d, EventType.departure, cid⟩] := by
    rw [evFor, hE, List.filter_append]
    rw [evFor] at hev0
    rw [hev0]
    simp
  have hqcid1 : cid ∉ s.employee_queue := fun h => hq0 (Or.inl h)
  have hqcid2 : cid ∉ s.self_service_queue := fun h => hq0 (Or.inr h)
  constructor
  · rw [hA, setDeparture, List.length_map, htot]; exact hlen
  · rw [hA, setDeparture]
    exact idsAligned_updId hI.ids
      (F := fun c => { c with departure_time := some d }) (fun c => rfl) cid
  · intro e he
    rw [hE] at he
    rw [htot]
    rcases List.mem_append.mp he with h | h
    · exact hI.ev_valid e h
    · simp at h; rw [h]; exact hcidlt
  · intro e he
    rw [hE] at he
    rw [hT]
    rcases List.mem_append.mp he with h | h
    · exact hI.ev_time e h
    · simp at h; rw [h]; exact hd
  · intro x hx
    rw [hQ1] at hx
    obtain ⟨h1, h2⟩ := hI.q_emp x hx
    have hxc : x ≠ cid := fun h => hqcid1 (h ▸ hx)
    exact ⟨by rw [htot]; exact h1, by rw [hcust_ne x hxc]; exact h2⟩
  · intro x hx
    rw [hQ2] at hx
    obtain ⟨h1, h2⟩ := hI.q_self x hx
    have hxc : x ≠ cid := fun h => hqcid2 (h ▸ hx)
    exact ⟨by rw [htot]; exact h1, by rw [hcust_ne x hxc]; exact h2⟩
  · rw [hQ1]; exact hI.q_emp_nodup
  · rw [hQ2]; exact hI.q_self_nodup
  · rw [hA, setDeparture]
    exact forall_mem_updId (F := fun c => { c with departure_time := some d })
      hI.svc_floor (fun c hc => hI.svc_floor c hc) cid
  · rw [hZ]; exact hI.zones_eff
  · rw [hL1, hL2, hQ1]; exact hI.log_emp
  · rw [hL3, hL4, hQ2]; exact hI.log_self
  · intro j hj
    rw [htot] at hj
    by_cases hjc : j = cid
    · subst hjc
      refine Or.inr (Or.inr (Or.inr (Or.inl ⟨t0, d, hevFor_eq,
        ?_, ?_, ?_, ?_, ?_, le_trans hts0 hd, by rw [hT]; exact hts0⟩)))
      · rw [hcust_eq]; exact hst0
      · rw [hcust_eq]
      · rw [hcust_eq]; exact hbk0
      · intro hq
        rcases hq with h | h
        · exact hqcid1 (by rw [← hQ1]; exact h)
        · exact hqcid2 (by rw [← hQ2]; exact h)
      · rw [hcust_eq]; exact har0
    · refine StatusOK_mono ?_ (hevFor_ne j hjc) (by rw [hQ1]) (by rw [hQ2])
        (le_of_eq hT.symm) (hI.status j hj hjc)
      rw [hcust_ne j hjc]
      exact eqCore_refl _

lemma inv_scheduleServiceDeparture {o : Oracle} (ho : validOracle o)
    {s : PickupPoint} {cid : ℕ} (hI : InvExcept s cid) (hSt : Started s cid) :
    Inv (scheduleServiceDeparture o cid s) := by
  have hlen : s.all_customers.length = s.total_customers := hI.len_eq
  have hcl : cid < s.all_customers.length := by have := hSt.1; omega
  have hsvc : (1:ℚ)/10 ≤ (cust s cid).service_time :=
    hI.svc_floor _ (getD_mem hcl)
  have hdel : (1:ℚ) ≤ o.delayAmount s.nDelayAmt := by
    have := (ho s.nDelayAmt).2.1
    rw [DELAY_TIME_MIN] at this
    exact this
  rw [scheduleServiceDeparture]
  simp only []
  split
  · -- delay branch
    refine inv_schedule_departure
      (invExcept_transport hI rfl hI.ids (fun j _ => rfl) rfl hI.svc_floor
        rfl rfl rfl rfl rfl hI.zones_eff rfl rfl rfl rfl)
      (started_transport hSt (eqCore_refl _) rfl (le_refl _) rfl Iff.rfl Iff.rfl)
      ?_
    show s.time ≤ s.time + ((cust s cid).service_time + o.delayAmount s.nDelayAmt)
    linarith
  · -- no-delay branch
    refine inv_schedule_departure
      (invExcept_transport hI rfl hI.ids (fun j _ => rfl) rfl hI.svc_floor
        rfl rfl rfl rfl rfl hI.zones_eff rfl rfl rfl rfl)
      (started_transport hSt (eqCore_refl _) rfl (le_refl _) rfl Iff.rfl Iff.rfl)
      ?_
    show s.time ≤ s.time + (cust s cid).service_time
    linarith

/-! ### The zone-selection block preserves the invariant -/

lemma getD_mem_of_lt {α : Type _} {xs : List α} {j : ℕ} (d : α)
    (h : j < xs.length) : xs.getD j d ∈ xs := by
  rw [List.getD_eq_getElem?_getD, List.getElem?_eq_getElem h]
  exact List.getElem_mem h

lemma applyBee_select_some {s : PickupPoint} {i : ℕ}
    (h : bee_algorithm_select_zone s = some i) :
    ∃ zs, s.zones = some zs ∧ zs ≠ [] ∧ i = argminLoad zs := by
  rw [bee_algorithm_select_zone] at h
  cases hz : s.zones with
  | none => rw [hz] at h; simp at h
  | some zs =>
    rw [hz] at h
    by_cases he : zs.isEmpty
    · exfalso; simp [he] at h
    · simp [he] at h
      refine ⟨zs, rfl, ?_, by omega⟩
      intro hnil
      subst hnil
      simp at he

lemma applyBee_events {s : PickupPoint} {cid : ℕ} :
    (applyBee cid s).events = s.events := by
  cases h : bee_algorithm_select_zone s <;> simp only [applyBee, h]

lemma applyBee_time {s : PickupPoint} {cid : ℕ} :
    (applyBee cid s).time = s.time := by
  cases h : bee_algorithm_select_zone s <;> simp only [applyBee, h]

lemma applyBee_total {s : PickupPoint} {cid : ℕ} :
    (applyBee cid s).total_customers = s.total_customers := by
  cases h : bee_algorithm_select_zone s <;> simp only [applyBee, h]

lemma applyBee_qemp {s : PickupPoint} {cid : ℕ} :
    (applyBee cid s).employee_queue = s.employee_queue := by
  cases h : bee_algorithm_select_zone s <;> simp only [applyBee, h]

lemma applyBee_qself {s : PickupPoint} {cid : ℕ} :
    (applyBee cid s).self_service_queue = s.self_service_queue := by
  cases h : bee_algorithm_select_zone s <;> simp only [applyBee, h]

lemma cust_core_applyBee {s : PickupPoint} (hids : idsAligned s.all_customers)
    (cid : ℕ) : ∀ j, eqCore (cust (applyBee cid s) j) (cust s j) := by
  intro j
  cases h : bee_algorithm_select_zone s with
  | none => simp only [applyBee, h]; exact eqCore_refl _
  | some i =>
    simp only [applyBee, h]
    show eqCore ((scaleService cid _ s.all_customers).getD j default)
      (s.all_customers.getD j default)
    rw [scaleService]
    refine getD_updId_core hids ?_ cid j
    exact fun c => ⟨rfl, rfl, rfl, rfl, rfl⟩

lemma limbo_applyBee {s : PickupPoint} {cid : ℕ}
    (hids : idsAligned s.all_customers) (hL : Limbo s cid) :
    Limbo (applyBee cid s) cid :=
  limbo_transport hL (cust_core_applyBee hids cid cid)
    (by rw [evFor, evFor, applyBee_events]) (le_of_eq applyBee_time.symm)
    applyBee_total (by rw [applyBee_qemp]) (by rw [applyBee_qself])

lemma started_applyBee {s : PickupPoint} {cid : ℕ}
    (hids : idsAligned s.all_customers) (hSt : Started s cid) :
    Started (applyBee cid s) cid :=
  started_transport hSt (cust_core_applyBee hids cid cid)
    (by rw [evFor, evFor, applyBee_events]) (le_of_eq applyBee_time.symm)
    applyBee_total (by rw [applyBee_qemp]) (by rw [applyBee_qself])

lemma invExcept_applyBee {s : PickupPoint} {cid : ℕ} (hI : InvExcept s cid) :
    InvExcept (applyBee cid s) cid := by
  cases h : bee_algorithm_select_zone s with
  | none => rw [applyBee, h]; exact hI
  | some i =>
    obtain ⟨zs, hzs, hne, hi⟩ := applyBee_select_some h
    have hil : i < zs.length := by rw [hi]; exact argminLoad_lt_length hne
    have hgz : s.zones.getD [] = zs := by rw [hzs]; rfl
    have heff : ((s.zones.getD []).getD i ⟨0, 0, 1⟩).efficiency = 1 := by
      rw [hgz]
      exact hI.zones_eff zs hzs _ (getD_mem_of_lt _ hil)
    rw [applyBee, h]
    refine invExcept_transport hI ?_ ?_ ?_ ?_ ?_ rfl rfl rfl rfl rfl ?_
      rfl rfl rfl rfl
    · show (scaleService cid _ s.all_customers).length = _
      rw [scaleService, List.length_map]
    · show idsAligned (scaleService cid _ s.all_customers)
      rw [scaleService]
      exact idsAligned_updId hI.ids
        (F := fun c => { c with service_time := c.service_time * _ })
        (fun c => rfl) cid
    · intro j hj
      show (scaleService cid _ s.all_customers).getD j default = _
      rw [scaleService]
      exact getD_updId_ne hI.ids _ hj
    · show ((scaleService cid _ s.all_customers).getD cid default).is_self_service =
        (s.all_customers.getD cid default).is_self_service
      rw [scaleService]
      refine (getD_updId_core hI.ids ?_ cid cid).2.2.2.2
      exact fun c => ⟨rfl, rfl, rfl, rfl, rfl⟩
    · show ∀ c ∈ scaleService cid _ s.all_customers, _
      rw [scaleService]
      refine forall_mem_updId hI.svc_floor ?_ cid
      intro c hc
      show (1:ℚ)/10 ≤ c.service_time * _
      rw [heff, mul_one]
      exact hI.svc_floor c hc
    · intro zs' hz'
      show ∀ z ∈ zs', z.efficiency = 1
      have : zs' = bumpLoad i zs := by
        rw [hgz] at hz'
        simpa using hz'.symm
      rw [this]
      exact fun z hz => bumpLoad_eff (hI.zones_eff zs hzs) i z hz

/-! ### The arrival handler preserves the invariant -/

lemma inv_serveOrQueue {o : Oracle} (ho : validOracle o)
    {s : PickupPoint} {cid : ℕ} (hI : InvExcept s cid) (hL : Limbo s cid) :
    Inv (serveOrQueue o cid s) := by
  obtain ⟨hcidlt, hev0, hst0, hdp0, hbk0, hq0, har0⟩ := hL
  have hlen : s.all_customers.length = s.total_customers := hI.len_eq
  have hcl : cid < s.all_customers.length := by omega
  have hqcid1 : cid ∉ s.employee_queue := fun h => hq0 (Or.inl h)
  have hqcid2 : cid ∉ s.self_service_queue := fun h => hq0 (Or.inr h)
  have hIserve : ∀ a b : ℤ,
      InvExcept
        ({ s with
            available_employees := a,
            available_self_service := b,
            all_customers := setStart cid s.time s.all_customers }) cid ∧
      Started
        ({ s with
            available_employees := a,
            available_self_service := b,
            all_customers := setStart cid s.time s.all_customers }) cid := by
    intro a b
    have hcust_eq : cust
        ({ s with
            available_employees := a,
            available_self_service := b,
            all_customers := setStart cid s.time s.all_customers }) cid =
        { cust s cid with start_service_time := some s.time } := by
      rw [cust, cust]
      show (setStart cid s.time s.all_customers).getD cid default = _
      rw [setStart]
      exact getD_updId_eq hI.ids _ hcl
    constructor
    · refine invExcept_transport hI ?_ ?_ ?_ ?_ ?_ rfl rfl rfl rfl rfl
        hI.zones_eff rfl rfl rfl rfl
      · show (setStart cid s.time s.all_customers).length = _
        rw [setStart, List.length_map]
      · show idsAligned (setStart cid s.time s.all_customers)
        rw [setStart]
        exact idsAligned_updId hI.ids
          (F := fun c => { c with start_service_time := some s.time })
          (fun c => rfl) cid
      · intro j hj
        rw [cust, cust]
        show (setStart cid s.time s.all_customers).getD j default = _
        rw [setStart]
        exact getD_updId_ne hI.ids _ hj
      · rw [hcust_eq]
      · show ∀ c ∈ setStart cid s.time s.all_customers, _
        rw [setStart]
        exact forall_mem_updId
          (F := fun c => { c with start_service_time := some s.time })
          hI.svc_floor (fun c hc => hI.svc_floor c hc) cid
    · refine ⟨hcidlt, ?_, s.time, ?_, ?_, ?_, ?_, ?_, le_refl _⟩
      · show List.filter (fun e => e.customer = cid) s.events = []
        rw [evFor] at hev0; exact hev0
      · rw [hcust_eq]
      · rw [hcust_eq]; exact hdp0
      · rw [hcust_eq]; exact hbk0
      · intro hq
        rcases hq with h | h
        · exact hqcid1 h
        · exact hqcid2 h
      · rw [hcust_eq]; exact har0
  have hIqueue : ∀ s' : PickupPoint,
      s'.all_customers = s.all_customers →
      s'.events = s.events → s'.time = s.time →
      s'.total_customers = s.total_customers →
      s'.zones = s.zones →
      ((cust s cid).is_self_service = true →
        s'.employee_queue = s.employee_queue ∧
        s'.self_service_queue = s.self_service_queue ++ [cid] ∧
        s'.enqLogEmp = s.enqLogEmp ∧ s'.deqLogEmp = s.deqLogEmp ∧
        s'.enqLogSelf = s.enqLogSelf ++ [cid] ∧ s'.deqLogSelf = s.deqLogSelf) →
      ((cust s cid).is_self_service = false →
        s'.employee_queue = s.employee_queue ++ [cid] ∧
        s'.self_service_queue = s.self_service_queue ∧
        s'.enqLogEmp = s.enqLogEmp ++ [cid] ∧ s'.deqLogEmp = s.deqLogEmp ∧
        s'.enqLogSelf = s.enqLogSelf ∧ s'.deqLogSelf = s.deqLogSelf) →
      Inv s' := by
    intro s' hA hE hT htot hZ hselfCase hempCase
    have hcust_all : ∀ j, cust s' j = cust s j := by
      intro j; rw [cust, cust, hA]
    rcases hsel : (cust s cid).is_self_service with _ | _
    case false =>
      obtain ⟨hQ1, hQ2, hG1, hG2, hG3, hG4⟩ := hempCase hsel
      constructor
      · rw [hA, htot]; exact hI.len_eq
      · rw [hA]; exact hI.ids
      · intro e he; rw [hE] at he; rw [htot]; exact hI.ev_valid e he
      · intro e he; rw [hE] at he; rw [hT]; exact hI.ev_time e he
      · intro x hx
        rw [hQ1] at hx
        rcases List.mem_append.mp hx with h | h
        · obtain ⟨h1, h2⟩ := hI.q_emp x h
          exact ⟨by rw [htot]; exact h1, by rw [hcust_all x]; exact h2⟩
        · simp only [List.mem_singleton] at h
          subst h
          exact ⟨by rw [htot]; exact hcidlt, by rw [hcust_all x]; exact hsel⟩
      · intro x hx
        rw [hQ2] at hx
        obtain ⟨h1, h2⟩ := hI.q_self x hx
        exact ⟨by rw [htot]; exact h1, by rw [hcust_all x]; exact h2⟩
      · rw [hQ1, List.nodup_append]
        exact ⟨hI.q_emp_nodup, List.nodup_singleton _,
          fun a ha hb => by
            simp only [List.mem_singleton] at hb
            subst hb
            exact hqcid1 ha⟩
      · rw [hQ2]; exact hI.q_self_nodup
      · rw [hA]; exact hI.svc_floor
      · rw [hZ]; exact hI.zones_eff
      · rw [hG1, hG2, hQ1, hI.log_emp, List.append_assoc]
      · rw [hG3, hG4, hQ2]; exact hI.log_self
      · intro j hj
        rw [htot] at hj
        by_cases hjc : j = cid
        · subst hjc
          refine Or.inr (Or.inr (Or.inl ⟨?_, ?_, ?_, ?_, ?_, ?_⟩))
          · rw [evFor, hE]; rw [evFor] at hev0; exact hev0
          · rw [hcust_all j, hsel, if_neg (by simp), hQ1]
            exact List.mem_append.mpr (Or.inr (List.mem_singleton.mpr rfl))
          · rw [hcust_all j]; exact hst0
          · rw [hcust_all j]; exact hdp0
          · rw [hcust_all j]; exact hbk0
          · rw [hcust_all j, hT]; exact har0
        · refine StatusOK_mono ?_ ?_ ?_ ?_ (le_of_eq hT.symm)
            (hI.status j hj hjc)
          · rw [hcust_all j]; exact eqCore_refl _
          · rw [evFor, evFor, hE]
          · rw [hQ1]; simp [hjc]
          · rw [hQ2]
    case true =>
      obtain ⟨hQ1, hQ2, hG1, hG2, hG3, hG4⟩ := hselfCase hsel
      constructor
      · rw [hA, htot]; exact hI.len_eq
      · rw [hA]; exact hI.ids
      · intro e he; rw [hE] at he; rw [htot]; exact hI.ev_valid e he
      · intro e he; rw [hE] at he; rw [hT]; exact hI.ev_time e he
      · intro x hx
        rw [hQ1] at hx
        obtain ⟨h1, h2⟩ := hI.q_emp x hx
        exact ⟨by rw [htot]; exact h1, by rw [hcust_all x]; exact h2⟩
      · intro x hx
        rw [hQ2] at hx
        rcases List.mem_append.mp hx with h | h
        · obtain ⟨h1, h2⟩ := hI.q_self x h
          exact ⟨by rw [htot]; exact h1, by rw [hcust_all x]; exact h2⟩
        · simp only [List.mem_singleton] at h
          subst h
          exact ⟨by rw [htot]; exact hcidlt, by rw [hcust_all x]; exact hsel⟩
      · rw [hQ1]; exact hI.q_emp_nodup
      · rw [hQ2, List.nodup_append]
        exact ⟨hI.q_self_nodup, List.nodup_singleton _,
          fun a ha hb => by
            simp only [List.mem_singleton] at hb
            subst hb
            exact hqcid2 ha⟩
      · rw [hA]; exact hI.svc_floor
      · rw [hZ]; exact hI.zones_eff
      · rw [hG1, hG2, hQ1]; exact hI.log_emp
      · rw [hG3, hG4, hQ2, hI.log_self, List.append_assoc]
      · intro j hj
        rw [htot] at hj
        by_cases hjc : j = cid
        · subst hjc
          refine Or.inr (Or.inr (Or.inl ⟨?_, ?_, ?_, ?_, ?_, ?_⟩))
          · rw [evFor, hE]; rw [evFor] at hev0; exact hev0
          · rw [hcust_all j, hsel, if_pos rfl, hQ2]
            exact List.mem_append.mpr (Or.inr (List.mem_singleton.mpr rfl))
          · rw [hcust_all j]; exact hst0
          · rw [hcust_all j]; exact hdp0
          · rw [hcust_all j]; exact hbk0
          · rw [hcust_all j, hT]; exact har0
        · refine StatusOK_mono ?_ ?_ ?_ ?_ (le_of_eq hT.symm)
            (hI.status j hj hjc)
          · rw [hcust_all j]; exact eqCore_refl _
          · rw [evFor, evFor, hE]
          · rw [hQ1]
          · rw [hQ2]; simp [hjc]
  rw [serveOrQueue]
  split
  · exact inv_scheduleServiceDeparture ho
      (hIserve s.available_employees (s.available_self_service - 1)).1
      (hIserve s.available_employees (s.available_self_service - 1)).2
  · split
    · exact inv_scheduleServiceDeparture ho
        (hIserve (s.available_employees - 1) s.available_self_service).1
        (hIserve (s.available_employees - 1) s.available_self_service).2
    · split
      · next hsel =>
        exact hIqueue _ rfl rfl rfl rfl rfl
          (fun _ => ⟨rfl, rfl, rfl, rfl, rfl, rfl⟩)
          (fun hfalse => absurd hsel (by rw [hfalse]; simp))
      · next hsel =>
        exact hIqueue _ rfl rfl rfl rfl rfl
          (fun htrue => absurd htrue (by
            intro h
            exact hsel (by rw [h])))
          (fun _ => ⟨rfl, rfl, rfl, rfl, rfl, rfl⟩)

lemma inv_handle_arrival {o : Oracle} (ho : validOracle o)
    {s : PickupPoint} {cid : ℕ} (hI : InvExcept s cid) (hL : Limbo s cid) :
    Inv (handle_arrival o cid s) := by
  have hIb : InvExcept { s with nBalk := s.nBalk + 1 } cid :=
    invExcept_transport hI rfl hI.ids (fun j _ => rfl) rfl hI.svc_floor
      rfl rfl rfl rfl rfl hI.zones_eff rfl rfl rfl rfl
  have hLb : Limbo { s with nBalk := s.nBalk + 1 } cid :=
    limbo_transport hL (eqCore_refl _) rfl (le_refl _) rfl Iff.rfl Iff.rfl
  rw [handle_arrival]
  split
  · exact inv_schedule_balk hIb hLb
  · have harm : ∀ s2 : PickupPoint, InvExcept s2 cid → Limbo s2 cid →
        Inv (serveOrQueue o cid s2) := fun _ a b => inv_serveOrQueue ho a b
    refine harm _ ?_ ?_ <;> split
    · exact invExcept_applyBee hIb
    · exact hIb
    · exact limbo_applyBee hIb.ids hLb
    · exact hLb

/-! ### The departure handler preserves the invariant -/

lemma inv_releaseZone {s : PickupPoint} (hInv : Inv s) :
    Inv (releaseZone s) := by
  rw [releaseZone]
  split
  · split
    · exact hInv
    · next zs hzs =>
      refine inv_transport hInv rfl hInv.ids (fun j => eqCore_refl _)
        hInv.svc_floor rfl rfl rfl rfl rfl ?_ rfl rfl rfl rfl
      intro zs' hz'
      have h2 : some (decFirstPositive zs) = some zs' := hz'
      obtain rfl := Option.some.inj h2
      exact decFirstPositive_eff (hInv.zones_eff zs hzs)
  · exact hInv

/-- Popping the head of a waiting line and starting its service yields the
handler midpoint state. -/
lemma pop_self_invExcept_started {s : PickupPoint} {next : ℕ} {rest : List ℕ}
    (hInv : Inv s) (hq : s.self_service_queue = next :: rest) :
    InvExcept
      ({ s with
          self_service_queue := rest,
          deqLogSelf := s.deqLogSelf ++ [next],
          all_customers := setStart next s.time s.all_customers }) next ∧
    Started
      ({ s with
          self_service_queue := rest,
          deqLogSelf := s.deqLogSelf ++ [next],
          all_customers := setStart next s.time s.all_customers }) next := by
  have hmem : next ∈ s.self_service_queue := by rw [hq]; exact List.mem_cons_self _ _
  obtain ⟨hnlt, hsel⟩ := hInv.q_self next hmem
  have hlen : s.all_customers.length = s.total_customers := hInv.len_eq
  have hcl : next < s.all_customers.length := by omega
  have hnodup : (next :: rest).Nodup := by rw [← hq]; exact hInv.q_self_nodup
  have hnrest : next ∉ rest := (List.nodup_cons.mp hnodup).1
  have hrest_nodup : rest.Nodup := (List.nodup_cons.mp hnodup).2
  have hnemp : next ∉ s.employee_queue := by
    intro h
    have := (hInv.q_emp next h).2
    rw [hsel] at this
    exact Bool.noConfusion this
  have hinq : inQueues s next := Or.inr hmem
  -- the status of a queued customer is the queued one
  have hstat := hInv.status next hnlt
  have hb : evFor s next = [] ∧ (cust s next).start_service_time = none ∧
      (cust s next).departure_time = none ∧ (cust s next).balked = false ∧
      (cust s next).arrival_time ≤ s.time := by
    rcases hstat with ⟨_, _, _, _, h5⟩ | ⟨_, _, _, _, h5, _⟩ |
      ⟨h1, _, h3, h4, h5, h6⟩ | ⟨t, d, _, _, _, _, h5, _, _, _⟩ |
      ⟨b, _, _, _, _, h5⟩ | ⟨_, _, _, _, h5⟩ | ⟨t, d, _, _, _, _, h5, _, _, _⟩
    · exact absurd hinq h5
    · exact absurd hinq h5
    · exact ⟨h1, h3, h4, h5, h6⟩
    · exact absurd hinq h5
    · exact absurd hinq h5
    · exact absurd hinq h5
    · exact absurd hinq h5
  obtain ⟨hev0, hst0, hdp0, hbk0, har0⟩ := hb
  have hcust_eq : cust
      ({ s with
          self_service_queue := rest,
          deqLogSelf := s.deqLogSelf ++ [next],
          all_customers := setStart next s.time s.all_customers }) next =
      { cust s next with start_service_time := some s.time } := by
    rw [cust, cust]
    show (setStart next s.time s.all_customers).getD next default = _
    rw [setStart]
    exact getD_updId_eq hInv.ids _ hcl
  have hcust_ne : ∀ j, j ≠ next →
      (setStart next s.time s.all_customers).getD j default =
        s.all_customers.getD j default := by
    intro j hj
    rw [setStart]
    exact getD_updId_ne hInv.ids _ hj
  constructor
  · constructor
    · show (setStart next s.time s.all_customers).length = _
      rw [setStart, List.length_map]
      exact hlen
    · show idsAligned (setStart next s.time s.all_customers)
      rw [setStart]
      exact idsAligned_updId hInv.ids
        (F := fun c => { c with start_service_time := some s.time })
        (fun c => rfl) next
    · intro e he; exact hInv.ev_valid e he
    · intro e he; exact hInv.ev_time e he
    · intro x hx
      have hx' : x ∈ s.employee_queue := hx
      obtain ⟨h1, h2⟩ := hInv.q_emp x hx'
      have hxn : x ≠ next := fun h => hnemp (h ▸ hx')
      refine ⟨h1, ?_⟩
      rw [cust]
      show ((setStart next s.time s.all_customers).getD x
        default).is_self_service = false
      rw [hcust_ne x hxn]
      exact h2
    · intro x hx
      have hx' : x ∈ rest := hx
      have hxq : x ∈ s.self_service_queue := by
        rw [hq]; exact List.mem_cons_of_mem _ hx'
      obtain ⟨h1, h2⟩ := hInv.q_self x hxq
      have hxn : x ≠ next := fun h => hnrest (h ▸ hx')
      refine ⟨h1, ?_⟩
      rw [cust]
      show ((setStart next s.time s.all_customers).getD x
        default).is_self_service = true
      rw [hcust_ne x hxn]
      exact h2
    · exact hInv.q_emp_nodup
    · exact hrest_nodup
    · show ∀ c ∈ setStart next s.time s.all_customers, _
      rw [setStart]
      exact forall_mem_updId
        (F := fun c => { c with start_service_time := some s.time })
        hInv.svc_floor (fun c hc => hInv.svc_floor c hc) next
    · exact hInv.zones_eff
    · exact hInv.log_emp
    · show s.enqLogSelf = (s.deqLogSelf ++ [next]) ++ rest
      rw [hInv.log_self, hq, List.append_assoc]
      rfl
    · intro j hj hjn
      refine StatusOK_mono ?_ ?_ ?_ ?_ ?_ (hInv.status j hj)
      · rw [cust]
        show eqCore ((setStart next s.time s.all_customers).getD j default) _
        rw [hcust_ne j hjn]
        exact eqCore_refl _
      · rfl
      · exact Iff.rfl
      · show j ∈ rest ↔ j ∈ s.self_service_queue
        rw [hq]
        simp [hjn]
      · exact le_refl _
  · refine ⟨hnlt, hev0, s.time, ?_, ?_, ?_, ?_, ?_, le_refl _⟩
    · rw [hcust_eq]
    · rw [hcust_eq]; exact hdp0
    · rw [hcust_eq]; exact hbk0
    · intro hq'
      rcases hq' with h | h
      · exact hnemp h
      · exact hnrest h
    · rw [hcust_eq]; exact har0

lemma pop_emp_invExcept_started {s : PickupPoint} {next : ℕ} {rest : List ℕ}
    (hInv : Inv s) (hq : s.employee_queue = next :: rest) :
    InvExcept
      ({ s with
          employee_queue := rest,
          deqLogEmp := s.deqLogEmp ++ [next],
          all_customers := setStart next s.time s.all_customers }) next ∧
    Started
      ({ s with
          employee_queue := rest,
          deqLogEmp := s.deqLogEmp ++ [next],
          all_customers := setStart next s.time s.all_customers }) next := by
  have hmem : next ∈ s.employee_queue := by rw [hq]; exact List.mem_cons_self _ _
  obtain ⟨hnlt, hsel⟩ := hInv.q_emp next hmem
  have hlen : s.all_customers.length = s.total_customers := hInv.len_eq
  have hcl : next < s.all_customers.length := by omega
  have hnodup : (next :: rest).Nodup := by rw [← hq]; exact hInv.q_emp_nodup
  have hnrest : next ∉ rest := (List.nodup_cons.mp hnodup).1
  have hrest_nodup : rest.Nodup := (List.nodup_cons.mp hnodup).2
  have hnself : next ∉ s.self_service_queue := by
    intro h
    have := (hInv.q_self next h).2
    rw [hsel] at this
    exact Bool.noConfusion this
  have hinq : inQueues s next := Or.inl hmem
  have hstat := hInv.status next hnlt
  have hb : evFor s next = [] ∧ (cust s next).start_service_time = none ∧
      (cust s next).departure_time = none ∧ (cust s next).balked = false ∧
      (cust s next).arrival_time ≤ s.time := by
    rcases hstat with ⟨_, _, _, _, h5⟩ | ⟨_, _, _, _, h5, _⟩ |
      ⟨h1, _, h3, h4, h5, h6⟩ | ⟨t, d, _, _, _, _, h5, _, _, _⟩ |
      ⟨b, _, _, _, _, h5⟩ | ⟨_, _, _, _, h5⟩ | ⟨t, d, _, _, _, _, h5, _, _, _⟩
    · exact absurd hinq h5
    · exact absurd hinq h5
    · exact ⟨h1, h3, h4, h5, h6⟩
    · exact absurd hinq h5
    · exact absurd hinq h5
    · exact absurd hinq h5
    · exact absurd hinq h5
  obtain ⟨hev0, hst0, hdp0, hbk0, har0⟩ := hb
  have hcust_eq : cust
      ({ s with
          employee_queue := rest,
          deqLogEmp := s.deqLogEmp ++ [next],
          all_customers := setStart next s.time s.all_customers }) next =
      { cust s next with start_service_time := some s.time } := by
    rw [cust, cust]
    show (setStart next s.time s.all_customers).getD next default = _
    rw [setStart]
    exact getD_updId_eq hInv.ids _ hcl
  have hcust_ne : ∀ j, j ≠ next →
      (setStart next s.time s.all_customers).getD j default =
        s.all_customers.getD j default := by
    intro j hj
    rw [setStart]
    exact getD_updId_ne hInv.ids _ hj
  constructor
  · constructor
    · show (setStart next s.time s.all_customers).length = _
      rw [setStart, List.length_map]
      exact hlen
    · show idsAligned (setStart next s.time s.all_customers)
      rw [setStart]
      exact idsAligned_updId hInv.ids
        (F := fun c => { c with start_service_time := some s.time })
        (fun c => rfl) next
    · intro e he; exact hInv.ev_valid e he
    · intro e he; exact hInv.ev_time e he
    · intro x hx
      have hx' : x ∈ rest := hx
      have hxq : x ∈ s.employee_queue := by
        rw [hq]; exact List.mem_cons_of_mem _ hx'
      obtain ⟨h1, h2⟩ := hInv.q_emp x hxq
      have hxn : x ≠ next := fun h => hnrest (h ▸ hx')
      refine ⟨h1, ?_⟩
      rw [cust]
      show ((setStart next s.time s.all_customers).getD x
        default).is_self_service = false
      rw [hcust_ne x hxn]
      exact h2
    · intro x hx
      have hx' : x ∈ s.self_service_queue := hx
      obtain ⟨h1, h2⟩ := hInv.q_self x hx'
      have hxn : x ≠ next := fun h => hnself (h ▸ hx')
      refine ⟨h1, ?_⟩
      rw [cust]
      show ((setStart next s.time s.all_customers).getD x
        default).is_self_service = true
      rw [hcust_ne x hxn]
      exact h2
    · exact hrest_nodup
    · exact hInv.q_self_nodup
    · show ∀ c ∈ setStart next s.time s.all_customers, _
      rw [setStart]
      exact forall_mem_updId
        (F := fun c => { c with start_service_time := some s.time })
        hInv.svc_floor (fun c hc => hInv.svc_floor c hc) next
    · exact hInv.zones_eff
    · show s.enqLogEmp = (s.deqLogEmp ++ [next]) ++ rest
      rw [hInv.log_emp, hq, List.append_assoc]
      rfl
    · exact hInv.log_self
    · intro j hj hjn
      refine StatusOK_mono ?_ ?_ ?_ ?_ ?_ (hInv.status j hj)
      · rw [cust]
        show eqCore ((setStart next s.time s.all_customers).getD j default) _
        rw [hcust_ne j hjn]
        exact eqCore_refl _
      · rfl
      · show j ∈ rest ↔ j ∈ s.employee_queue
        rw [hq]
        simp [hjn]
      · exact Iff.rfl
      · exact le_refl _
  · refine ⟨hnlt, hev0, s.time, ?_, ?_, ?_, ?_, ?_, le_refl _⟩
    · rw [hcust_eq]
    · rw [hcust_eq]; exact hdp0
    · rw [hcust_eq]; exact hbk0
    · intro hq'
      rcases hq' with h | h
      · exact hnrest h
      · exact hnself h
    · rw [hcust_eq]; exact har0

lemma inv_dequeue {o : Oracle} (ho : validOracle o) {s : PickupPoint}
    {next : ℕ} (hI : InvExcept s next) (hSt : Started s next) :
    Inv (scheduleServiceDeparture o next
      (if s.use_bee_algorithm then applyBee next s else s)) := by
  split
  · exact inv_scheduleServiceDeparture ho (invExcept_applyBee hI)
      (started_applyBee hI.ids hSt)
  · exact inv_scheduleServiceDeparture ho hI hSt

lemma inv_dequeue_self {o : Oracle} (ho : validOracle o) {s : PickupPoint}
    (hInv : Inv s) : Inv (dequeue_self o s) := by
  rw [dequeue_self]
  split
  · exact hInv
  · next nxt rest heq =>
    obtain ⟨hIe, hSt⟩ := pop_self_invExcept_started hInv heq
    exact inv_dequeue ho hIe hSt

lemma inv_dequeue_emp {o : Oracle} (ho : validOracle o) {s : PickupPoint}
    (hInv : Inv s) : Inv (dequeue_emp o s) := by
  rw [dequeue_emp]
  split
  · exact hInv
  · next nxt rest heq =>
    obtain ⟨hIe, hSt⟩ := pop_emp_invExcept_started hInv heq
    exact inv_dequeue ho hIe hSt

lemma inv_handle_departure {o : Oracle} (ho : validOracle o)
    {s : PickupPoint} (hInv : Inv s) (cid : ℕ) :
    Inv (handle_departure o cid s) := by
  rw [handle_departure]
  split
  · exact inv_dequeue_self ho
      (inv_releaseZone (inv_transport hInv rfl hInv.ids
        (fun j => eqCore_refl _) hInv.svc_floor rfl rfl rfl rfl rfl
        hInv.zones_eff rfl rfl rfl rfl))
  · exact inv_dequeue_emp ho
      (inv_releaseZone (inv_transport hInv rfl hInv.ids
        (fun j => eqCore_refl _) hInv.svc_floor rfl rfl rfl rfl rfl
        hInv.zones_eff rfl rfl rfl rfl))

/-! ### The event loop preserves the invariant -/

/-- Removing the extracted event and advancing the clock to its time yields a
state satisfying the invariant except for the dispatched customer, whose
shape depends on the event type. -/
lemma inv_after_extract {s : PickupPoint} (hInv : Inv s) {e : Event}
    {rest : List Event} (hex : extractMin s.events = some (e, rest)) :
    InvExcept ({ s with events := rest, time := e.time }) e.customer ∧
    (e.type = EventType.arrival →
      Limbo ({ s with events := rest, time := e.time }) e.customer) ∧
    (e.type = EventType.departure →
      Inv ({ s with events := rest, time := e.time })) ∧
    (e.type = EventType.balk →
      Inv ({ s with events := rest, time := e.time })) := by
  have hmem : e ∈ s.events := extractMin_mem hex
  have hmin : ∀ e' ∈ s.events, e.time ≤ e'.time := extractMin_le hex
  have hts1 : s.time ≤ e.time := hInv.ev_time e hmem
  have hsub : ∀ e' ∈ rest, e' ∈ s.events := extractMin_rest_subset hex
  obtain ⟨l1, l2, hsplit, hrsplit⟩ := extractMin_decomp hex
  have hcid_lt : e.customer < s.total_customers := hInv.ev_valid e hmem
  have hself_mem : e ∈ evFor s e.customer :=
    List.mem_filter.mpr ⟨hmem, by simp⟩
  have hnotnil : evFor s e.customer ≠ [] := by
    intro hnil
    rw [hnil] at hself_mem
    exact absurd hself_mem (List.not_mem_nil _)
  have hfiltl : evFor s e.customer =
      List.filter (fun x => x.customer = e.customer) l1 ++
        e :: List.filter (fun x => x.customer = e.customer) l2 := by
    rw [evFor, hsplit, List.filter_append, List.filter_cons_of_pos (by simp)]
  have hrestfilt : List.filter (fun x => x.customer = e.customer) rest =
      List.filter (fun x => x.customer = e.customer) l1 ++
        List.filter (fun x => x.customer = e.customer) l2 := by
    rw [hrsplit, List.filter_append]
  have hesing : ∀ x, evFor s e.customer = [x] → x = e ∧
      List.filter (fun b => b.customer = e.customer) rest = [] := by
    intro x hx
    rw [hfiltl] at hx
    have hlen := congrArg List.length hx
    simp at hlen
    have h1 : (List.filter (fun x => x.customer = e.customer) l1).length = 0 :=
      by omega
    have h2 : (List.filter (fun x => x.customer = e.customer) l2).length = 0 :=
      by omega
    rw [List.length_eq_zero] at h1 h2
    rw [h1, h2] at hx
    simp only [List.nil_append] at hx
    refine ⟨?_, by rw [hrestfilt, h1, h2]; rfl⟩
    exact (List.cons.injEq _ _ _ _ ▸ hx).1.symm
  have hevFor_ne : ∀ j, j ≠ e.customer →
      evFor ({ s with events := rest, time := e.time }) j = evFor s j := by
    intro j hj
    show List.filter (fun x => x.customer = j) rest =
      List.filter (fun x => x.customer = j) s.events
    rw [hsplit, hrsplit, List.filter_append, List.filter_append,
      List.filter_cons_of_neg (by simp [Ne.symm hj])]
  have hIe : InvExcept ({ s with events := rest, time := e.time }) e.customer := by
    constructor
    · exact hInv.len_eq
    · exact hInv.ids
    · intro e' he'
      exact hInv.ev_valid e' (hsub e' he')
    · intro e' he'
      have h' : e' ∈ rest := he'
      rw [hrsplit] at h'
      rw [hsplit] at hmin
      show e.time ≤ e'.time
      rcases List.mem_append.mp h' with hh | hh
      · exact hmin e' (List.mem_append.mpr (Or.inl hh))
      · exact hmin e' (List.mem_append.mpr (Or.inr (List.mem_cons_of_mem _ hh)))
    · exact hInv.q_emp
    · exact hInv.q_self
    · exact hInv.q_emp_nodup
    · exact hInv.q_self_nodup
    · exact hInv.svc_floor
    · exact hInv.zones_eff
    · exact hInv.log_emp
    · exact hInv.log_self
    · intro j hj hjc
      refine StatusOK_mono ?_ (hevFor_ne j hjc) Iff.rfl Iff.rfl
        hts1 (hInv.status j hj)
      exact eqCore_refl _
  have hstat := hInv.status e.customer hcid_lt
  refine ⟨hIe, ?_, ?_, ?_⟩
  · -- arrival
    intro hty
    rcases hstat with ⟨h1, h2, h3, h4, h5⟩ | ⟨h1, _⟩ | ⟨h1, _⟩ |
      ⟨t, d, h1, _⟩ | ⟨b, h1, _⟩ | ⟨h1, _⟩ | ⟨t, d, h1, _⟩
    · obtain ⟨hxe, hr0⟩ := hesing _ h1
      have htime : e.time = (cust s e.customer).arrival_time := by
        rw [← hxe]
      exact ⟨hcid_lt, hr0, h2, h3, h4, h5, le_of_eq htime.symm⟩
    · exact absurd h1 hnotnil
    · exact absurd h1 hnotnil
    · obtain ⟨hxe, _⟩ := hesing _ h1
      exfalso
      have : e.type = EventType.departure := by rw [← hxe]
      rw [hty] at this
      exact EventType.noConfusion this
    · obtain ⟨hxe, _⟩ := hesing _ h1
      exfalso
      have : e.type = EventType.balk := by rw [← hxe]
      rw [hty] at this
      exact EventType.noConfusion this
    · exact absurd h1 hnotnil
    · exact absurd h1 hnotnil
  · -- departure
    intro hty
    rcases hstat with ⟨h1, h2, h3, h4, h5⟩ | ⟨h1, _⟩ | ⟨h1, _⟩ |
      ⟨t, d, h1, h2, h3, h4, h5, h6, h7, h8⟩ | ⟨b, h1, _⟩ | ⟨h1, _⟩ |
      ⟨t, d, h1, _⟩
    · obtain ⟨hxe, _⟩ := hesing _ h1
      exfalso
      have : e.type = EventType.arrival := by rw [← hxe]
      rw [hty] at this
      exact EventType.noConfusion this
    · exact absurd h1 hnotnil
    · exact absurd h1 hnotnil
    · obtain ⟨hxe, hr0⟩ := hesing _ h1
      have htd : e.time = d := by rw [← hxe]
      refine hIe.toInv (Or.inr (Or.inr (Or.inr (Or.inr (Or.inr (Or.inr
        ⟨t, d, hr0, h2, h3, h4, h5, h6, h7, ?_⟩))))))
      show t ≤ e.time
      rw [htd]
      exact h7
    · obtain ⟨hxe, _⟩ := hesing _ h1
      exfalso
      have : e.type = EventType.balk := by rw [← hxe]
      rw [hty] at this
      exact EventType.noConfusion this
    · exact absurd h1 hnotnil
    · exact absurd h1 hnotnil
  · -- balk
    intro hty
    rcases hstat with ⟨h1, h2, h3, h4, h5⟩ | ⟨h1, _⟩ | ⟨h1, _⟩ |
      ⟨t, d, h1, _⟩ | ⟨b, h1, h2, h3, h4, h5⟩ | ⟨h1, _⟩ | ⟨t, d, h1, _⟩
    · obtain ⟨hxe, _⟩ := hesing _ h1
      exfalso
      have : e.type = EventType.arrival := by rw [← hxe]
      rw [hty] at this
      exact EventType.noConfusion this
    · exact absurd h1 hnotnil
    · exact absurd h1 hnotnil
    · obtain ⟨hxe, _⟩ := hesing _ h1
      exfalso
      have : e.type = EventType.departure := by rw [← hxe]
      rw [hty] at this
      exact EventType.noConfusion this
    · obtain ⟨hxe, hr0⟩ := hesing _ h1
      exact hIe.toInv (Or.inr (Or.inr (Or.inr (Or.inr (Or.inr (Or.inl
        ⟨hr0, h2, h3, h4, h5⟩))))))
    · exact absurd h1 hnotnil
    · exact absurd h1 hnotnil

/-- One loop iteration preserves the invariant. -/
lemma inv_step {o : Oracle} (ho : validOracle o) {T : ℚ}
    {s s' : PickupPoint} (hInv : Inv s) (h : step o T s = some s') :
    Inv s' := by
  rw [step] at h
  split at h
  · exact Option.noConfusion h
  · next e0 es0 hse =>
    split at h
    · split at h
      · exact Option.noConfusion h
      · next e rest hex =>
        have hex' : extractMin s.events = some (e, rest) := by
          rw [hse]; exact hex
        obtain ⟨hIe, hLarr, hDep, hBalk⟩ := inv_after_extract hInv hex'
        split at h
        · -- arrival
          next hty =>
          have hInv2 : Inv (handle_arrival o e.customer
              { s with events := rest, time := e.time }) :=
            inv_handle_arrival ho hIe (hLarr hty)
          have hInv3 : Inv (exponential_random o (handle_arrival o e.customer
              { s with events := rest, time := e.time })).2 :=
            inv_transport hInv2 rfl hInv2.ids (fun j => eqCore_refl _)
              hInv2.svc_floor rfl rfl rfl rfl rfl hInv2.zones_eff
              rfl rfl rfl rfl
          simp only [] at h
          split at h
          · obtain rfl := Option.some.inj h
            exact inv_schedule_arrival o hInv3
              (le_add_of_nonneg_right (ho _).1)
          · obtain rfl := Option.some.inj h
            exact hInv3
        · -- departure
          next hty =>
          obtain rfl := Option.some.inj h
          exact inv_handle_departure ho (hDep hty) e.customer
        · -- balk
          next hty =>
          obtain rfl := Option.some.inj h
          exact hBalk hty
    · exact Option.noConfusion h

/-- Any number of loop iterations preserves the invariant. -/
lemma inv_runLoop {o : Oracle} (ho : validOracle o) {T : ℚ} :
    ∀ (n : ℕ) {s : PickupPoint}, Inv s → Inv (runLoop o T n s) := by
  intro n
  induction n with
  | zero => intro s h; exact h
  | succ n ih =>
    intro s h
    rw [runLoop]
    cases hst : step o T s with
    | none => exact h
    | some s' => exact ih (inv_step ho h hst)

/-- The freshly constructed engine satisfies the invariant. -/
lemma inv_mkPickupPoint (ne ns : ℤ) (bee : Bool) :
    Inv (mkPickupPoint ne ns bee) := by
  constructor
  · rfl
  · intro i h; exact absurd h (by simp [mkPickupPoint])
  · intro e he; exact absurd he (by simp [mkPickupPoint])
  · intro e he; exact absurd he (by simp [mkPickupPoint])
  · intro x hx; exact absurd hx (by simp [mkPickupPoint])
  · intro x hx; exact absurd hx (by simp [mkPickupPoint])
  · exact List.nodup_nil
  · exact List.nodup_nil
  · intro c hc; exact absurd hc (by simp [mkPickupPoint])
  · intro zs hzs
    show ∀ z ∈ zs, z.efficiency = 1
    have : (if bee then some [⟨0, 0, 1⟩, ⟨1, 0, 1⟩, ⟨2, 0, 1⟩] else none :
        Option (List Zone)) = some zs := hzs
    cases bee with
    | false => rw [if_neg (by simp)] at this; exact Option.noConfusion this
    | true =>
      rw [if_pos rfl] at this
      obtain rfl := Option.some.inj this
      intro z hz
      simp only [List.mem_cons, List.not_mem_nil, or_false] at hz
      rcases hz with rfl | rfl | rfl <;> rfl
  · rfl
  · rfl
  · intro cid hcid
    exact absurd hcid (by simp [mkPickupPoint])

/-- The state entering the loop (first arrival scheduled) satisfies the
invariant. -/
lemma inv_initState {o : Oracle} (ho : validOracle o) (ne ns : ℤ)
    (bee : Bool) : Inv (initState o ne ns bee) := by
  rw [initState]
  refine inv_schedule_arrival o ?_ ?_
  · exact inv_transport (inv_mkPickupPoint ne ns bee) rfl
      (inv_mkPickupPoint ne ns bee).ids (fun j => eqCore_refl _)
      (inv_mkPickupPoint ne ns bee).svc_floor rfl rfl rfl rfl rfl
      (inv_mkPickupPoint ne ns bee).zones_eff rfl rfl rfl rfl
  · exact (ho _).1

lemma inv_computeWaitingTimes {s : PickupPoint} (h : Inv s) :
    Inv (computeWaitingTimes s) :=
  inv_transport h rfl h.ids (fun _ => eqCore_refl _) h.svc_floor
    rfl rfl rfl rfl rfl h.zones_eff rfl rfl rfl rfl

/-- The invariant holds at the end of a complete run. -/
lemma inv_run_scenario {o : Oracle} (ho : validOracle o) (ne ns : ℤ)
    (bee : Bool) (T : ℚ) (fuel : ℕ) :
    Inv (run_scenario o ne ns bee T fuel) := by
  rw [run_scenario, run_simulation]
  exact inv_computeWaitingTimes
    (inv_runLoop ho fuel (inv_initState ho ne ns bee))

/-! ### Clock and ghost-log projection lemmas -/

lemma schedule_arrival_time (o : Oracle) (t : ℚ) (s : PickupPoint) :
    (schedule_arrival o t s).time = s.time := rfl

lemma scheduleServiceDeparture_time (o : Oracle) (cid : ℕ) (s : PickupPoint) :
    (scheduleServiceDeparture o cid s).time = s.time := by
  rw [scheduleServiceDeparture]
  split <;> rfl

lemma applyBee_deqEmp {s : PickupPoint} {cid : ℕ} :
    (applyBee cid s).deqLogEmp = s.deqLogEmp := by
  cases h : bee_algorithm_select_zone s <;> simp only [applyBee, h]

lemma applyBee_deqSelf {s : PickupPoint} {cid : ℕ} :
    (applyBee cid s).deqLogSelf = s.deqLogSelf := by
  cases h : bee_algorithm_select_zone s <;> simp only [applyBee, h]

lemma applyBee_zones_some {s : PickupPoint} {cid : ℕ} :
    ∀ zs, s.zones = some zs → zs ≠ [] →
      (applyBee cid s).zones = some (bumpLoad (argminLoad zs) zs) := by
  intro zs hzs hne
  have hsel : bee_algorithm_select_zone s = some (argminLoad zs) := by
    simp only [bee_algorithm_select_zone, hzs]
    rw [if_neg (by simpa [List.isEmpty_iff] using hne)]
  simp only [applyBee, hsel]
  show some (bumpLoad (argminLoad zs) (s.zones.getD [])) = _
  rw [hzs]
  rfl

lemma serveOrQueue_time (o : Oracle) (cid : ℕ) (s : PickupPoint) :
    (serveOrQueue o cid s).time = s.time := by
  rw [serveOrQueue]
  split
  · rw [scheduleServiceDeparture_time]
  · split
    · rw [scheduleServiceDeparture_time]
    · split <;> rfl

lemma serveOrQueue_deqEmp (o : Oracle) (cid : ℕ) (s : PickupPoint) :
    (serveOrQueue o cid s).deqLogEmp = s.deqLogEmp := by
  rw [serveOrQueue]
  split
  · show (scheduleServiceDeparture o cid _).deqLogEmp = _
    rw [scheduleServiceDeparture]; split <;> rfl
  · split
    · show (scheduleServiceDeparture o cid _).deqLogEmp = _
      rw [scheduleServiceDeparture]; split <;> rfl
    · split <;> rfl

lemma serveOrQueue_deqSelf (o : Oracle) (cid : ℕ) (s : PickupPoint) :
    (serveOrQueue o cid s).deqLogSelf = s.deqLogSelf := by
  rw [serveOrQueue]
  split
  · show (scheduleServiceDeparture o cid _).deqLogSelf = _
    rw [scheduleServiceDeparture]; split <;> rfl
  · split
    · show (scheduleServiceDeparture o cid _).deqLogSelf = _
      rw [scheduleServiceDeparture]; split <;> rfl
    · split <;> rfl

lemma serveOrQueue_zones (o : Oracle) (cid : ℕ) (s : PickupPoint) :
    (serveOrQueue o cid s).zones = s.zones := by
  rw [serveOrQueue]
  split
  · show (scheduleServiceDeparture o cid _).zones = _
    rw [scheduleServiceDeparture]; split <;> rfl
  · split
    · show (scheduleServiceDeparture o cid _).zones = _
      rw [scheduleServiceDeparture]; split <;> rfl
    · split <;> rfl

lemma handle_arrival_time (o : Oracle) (cid : ℕ) (s : PickupPoint) :
    (handle_arrival o cid s).time = s.time := by
  rw [handle_arrival]
  split
  · rfl
  · rw [serveOrQueue_time]
    split
    · rw [applyBee_time]; rfl
    · rfl

lemma handle_arrival_deqEmp (o : Oracle) (cid : ℕ) (s : PickupPoint) :
    (handle_arrival o cid s).deqLogEmp = s.deqLogEmp := by
  rw [handle_arrival]
  split
  · rfl
  · rw [serveOrQueue_deqEmp]
    split
    · rw [applyBee_deqEmp]; rfl
    · rfl

lemma handle_arrival_deqSelf (o : Oracle) (cid : ℕ) (s : PickupPoint) :
    (handle_arrival o cid s).deqLogSelf = s.deqLogSelf := by
  rw [handle_arrival]
  split
  · rfl
  · rw [serveOrQueue_deqSelf]
    split
    · rw [applyBee_deqSelf]; rfl
    · rfl

lemma releaseZone_time (s : PickupPoint) : (releaseZone s).time = s.time := by
  rw [releaseZone]
  split
  · split <;> rfl
  · rfl

lemma dequeue_self_time (o : Oracle) (s : PickupPoint) :
    (dequeue_self o s).time = s.time := by
  rw [dequeue_self]
  split
  · rfl
  · simp only []
    rw [scheduleServiceDeparture_time]
    split
    · rw [applyBee_time]
    · rfl

lemma dequeue_emp_time (o : Oracle) (s : PickupPoint) :
    (dequeue_emp o s).time = s.time := by
  rw [dequeue_emp]
  split
  · rfl
  · simp only []
    rw [scheduleServiceDeparture_time]
    split
    · rw [applyBee_time]
    · rfl

lemma handle_departure_time (o : Oracle) (cid : ℕ) (s : PickupPoint) :
    (handle_departure o cid s).time = s.time := by
  rw [handle_departure]
  split
  · rw [dequeue_self_time, releaseZone_time]
  · rw [dequeue_emp_time, releaseZone_time]

/-! ### Concrete draw families used by the executable runs -/

/-- Arrivals at 1, 2, 3 and then far beyond any horizon used; every customer
is staff-assisted, never balks, service takes 10 minutes, no incident
delays. -/
def oracleA : Oracle where
  expGap n := if n = 0 then 1 else if n = 1 then 1 else if n = 2 then 1 else 200
  serviceNormal _ := 10
  prefU _ := 1/2
  balkU _ := 1/2
  delayU _ := 1/2
  delayAmount _ := 1

lemma validOracleA : validOracle oracleA := by
  intro n
  refine ⟨?_, ?_, ?_, ?_, ?_, ?_, ?_, ?_, ?_⟩ <;>
    simp only [oracleA, DELAY_TIME_MIN, DELAY_TIME_MAX] <;>
    first
    | (split_ifs <;> norm_num)
    | norm_num

/-- One staff-assisted arrival whose balking draw succeeds. -/
def oracleB : Oracle where
  expGap n := if n = 0 then 1 else 200
  serviceNormal _ := 10
  prefU _ := 1/2
  balkU _ := 0
  delayU _ := 1/2
  delayAmount _ := 1

lemma validOracleB : validOracle oracleB := by
  intro n
  refine ⟨?_, ?_, ?_, ?_, ?_, ?_, ?_, ?_, ?_⟩ <;>
    simp only [oracleB, DELAY_TIME_MIN, DELAY_TIME_MAX] <;>
    first
    | (split_ifs <;> norm_num)
    | norm_num

/-- One self-service-preferring arrival that never balks. -/
def oracleD : Oracle where
  expGap n := if n = 0 then 1 else 200
  serviceNormal _ := 10
  prefU _ := 0
  balkU _ := 1/2
  delayU _ := 1/2
  delayAmount _ := 1

lemma validOracleD : validOracle oracleD := by
  intro n
  refine ⟨?_, ?_, ?_, ?_, ?_, ?_, ?_, ?_, ?_⟩ <;>
    simp only [oracleD, DELAY_TIME_MIN, DELAY_TIME_MAX] <;>
    first
    | (split_ifs <;> norm_num)
    | norm_num

/-! ### Claim C1 -/

lemma step_none_of_le {o : Oracle} {T : ℚ} {s : PickupPoint}
    (hT : T ≤ s.time) : step o T s = none := by
  rw [step]
  split
  · rfl
  · rw [if_neg (not_lt.mpr hT)]

set_option maxHeartbeats 4000000 in
/-- Counterexample to claim C1 as stated: with horizon 25 and the `oracleA`
draws, after five events the only pending event is the departure at time 31
(past the horizon) and the clock is 21 (inside the horizon); the sixth loop
iteration nevertheless extracts and dispatches that event — the clock jumps
to 31 and the departure handler runs (freeing capacity) — because the source
checks `self.time < horizon` before popping, not the popped event's time.  So
an event with time ≥ horizon is dispatched. -/
theorem C1_counterexample :
    (runLoop oracleA 25 5 (initState oracleA 1 0 false)).events
        = [⟨31, EventType.departure, 2⟩] ∧
    (runLoop oracleA 25 5 (initState oracleA 1 0 false)).time = 21 ∧
    ((runLoop oracleA 25 5 (initState oracleA 1 0 false)).time < 25) ∧
    ((25:ℚ) ≤ 31) ∧
    (runLoop oracleA 25 6 (initState oracleA 1 0 false)).time = 31 ∧
    (runLoop oracleA 25 6 (initState oracleA 1 0 false)).available_employees
        = 3 ∧
    (runLoop oracleA 25 6 (initState oracleA 1 0 false)).events = [] := by
  norm_num [runLoop, step, extractMin, handle_arrival, handle_departure,
    serveOrQueue, dequeue_self, dequeue_emp, schedule_arrival,
    schedule_departure, schedule_balk, will_customer_balk,
    scheduleServiceDeparture, exponential_random, cust, setStart,
    setDeparture, setBalked, scaleService, applyBee,
    bee_algorithm_select_zone, argminLoad, bumpLoad, decFirstPositive,
    releaseZone, mkPickupPoint, initState, BAULK_PROBABILITY,
    DELAY_PROBABILITY, SELF_SERVICE_PROB, oracleA]

/-- Claim C1, amended: whenever the loop guard holds (pending events exist
and the clock is below the horizon) one iteration extracts the
leftmost-minimal-time pending event and advances the clock to its time — but
the extracted event is dispatched even when its time is at or past the
horizon; at most one such event can be dispatched, because the loop stops
immediately afterwards. -/
theorem C1_amended (o : Oracle) (T : ℚ) (s s' : PickupPoint)
    (h : step o T s = some s') :
    s.events ≠ [] ∧ s.time < T ∧
    ∃ e rest, extractMin s.events = some (e, rest) ∧ e ∈ s.events ∧
      (∀ e' ∈ s.events, e.time ≤ e'.time) ∧ s'.time = e.time ∧
      (T ≤ e.time → step o T s' = none) := by
  rw [step] at h
  split at h
  · exact Option.noConfusion h
  · next e0 es0 hse =>
    split at h
    · next hT =>
      split at h
      · exact Option.noConfusion h
      · next e rest hex =>
        have hex' : extractMin s.events = some (e, rest) := by
          rw [hse]; exact hex
        have hstime : s'.time = e.time := by
          split at h
          · simp only [] at h
            split at h
            · obtain rfl := Option.some.inj h
              rw [schedule_arrival_time]
              rw [show (exponential_random o (handle_arrival o e.customer
                ({ s with events := rest, time := e.time }))).2.time =
                (handle_arrival o e.customer
                  ({ s with events := rest, time := e.time })).time from rfl]
              rw [handle_arrival_time]
            · obtain rfl := Option.some.inj h
              rw [show (exponential_random o (handle_arrival o e.customer
                ({ s with events := rest, time := e.time }))).2.time =
                (handle_arrival o e.customer
                  ({ s with events := rest, time := e.time })).time from rfl]
              rw [handle_arrival_time]
          · obtain rfl := Option.some.inj h
            rw [handle_departure_time]
          · obtain rfl := Option.some.inj h
            rfl
        refine ⟨by rw [hse]; simp, hT, e, rest, hex', extractMin_mem hex',
          extractMin_le hex', hstime, ?_⟩
        intro hTe
        apply step_none_of_le
        rw [hstime]
        exact hTe
    · exact Option.noConfusion h

/-- A one-event state used to exercise `C1_amended`. -/
def tinyState : PickupPoint :=
  ⟨1, 0, false, 1, 0, [], [], [⟨0, 1, none, none, 10, false, false⟩], [],
   [⟨5, EventType.balk, 0⟩], 1, 1, none, 1, 0, 0, 1, 1, 1, 1, 0, 0,
   [], [], [], []⟩

def tinyStateStepped : PickupPoint := { tinyState with events := [], time := 5 }

theorem C1_amended_witness :
    tinyState.events ≠ [] ∧ tinyState.time < 10 := by
  have h : step oracleA 10 tinyState = some tinyStateStepped := by
    norm_num [step, extractMin, tinyState, tinyStateStepped]
  exact ⟨(C1_amended oracleA 10 tinyState tinyStateStepped h).1,
    (C1_amended oracleA 10 tinyState tinyStateStepped h).2.1⟩

/-! ### Claim C2 -/

set_option maxHeartbeats 4000000 in
/-- Claim C2 = the code violates the capacity invariant.  With one staff
server (`num_employees = 1`) and the `oracleA` draws: after the fourth event
(the first departure, which dequeues customer 1 and starts its service
without re-decrementing the freed capacity), `available_employees` is already
1 while customer 1 is in service (its start time is set and its departure
event is pending), so `available + in-service = 2 ≠ 1`; by the end of the run
`available_employees` has grown to 3, outside the claimed range `[0, 1]`. -/
theorem C2_capacity_bug :
    (runLoop oracleA 100 4 (initState oracleA 1 0 false)).available_employees
        = 1 ∧
    (cust (runLoop oracleA 100 4 (initState oracleA 1 0 false))
        1).start_service_time = some 11 ∧
    (⟨21, EventType.departure, 1⟩ : Event) ∈
      (runLoop oracleA 100 4 (initState oracleA 1 0 false)).events ∧
    (runLoop oracleA 100 4 (initState oracleA 1 0 false)).num_employees = 1 ∧
    (run_scenario oracleA 1 0 false 100 10).available_employees = 3 ∧
    (run_scenario oracleA 1 0 false 100 10).num_employees = 1 := by
  norm_num [run_scenario, run_simulation, computeWaitingTimes, runLoop, step,
    extractMin, handle_arrival, handle_departure, serveOrQueue, dequeue_self,
    dequeue_emp, schedule_arrival, schedule_departure, schedule_balk,
    will_customer_balk, scheduleServiceDeparture, exponential_random, cust,
    setStart, setDeparture, setBalked, scaleService, applyBee,
    bee_algorithm_select_zone, argminLoad, bumpLoad, decFirstPositive,
    releaseZone, mkPickupPoint, initState, BAULK_PROBABILITY,
    DELAY_PROBABILITY, SELF_SERVICE_PROB, oracleA]

/-! ### Claim C3 -/

set_option maxHeartbeats 4000000 in
/-- Counterexample to claim C3 as stated: when the balking draw succeeds, the
source's `schedule_balk` *does* emit an event for that customer — a balk
event at the arrival instant — contradicting "no further events are emitted
for that customer". -/
theorem C3_counterexample :
    (⟨1, EventType.balk, 0⟩ : Event) ∈
      (runLoop oracleB 100 1 (initState oracleB 1 0 false)).events ∧
    (cust (runLoop oracleB 100 1 (initState oracleB 1 0 false)) 0).balked
        = true := by
  norm_num [runLoop, step, extractMin, handle_arrival, handle_departure,
    serveOrQueue, dequeue_self, dequeue_emp, schedule_arrival,
    schedule_departure, schedule_balk, will_customer_balk,
    scheduleServiceDeparture, exponential_random, cust, setStart,
    setDeparture, setBalked, scaleService, applyBee,
    bee_algorithm_select_zone, argminLoad, bumpLoad, decFirstPositive,
    releaseZone, mkPickupPoint, initState, BAULK_PROBABILITY,
    DELAY_PROBABILITY, SELF_SERVICE_PROB, oracleB]

/-- A customer record found in `all_customers` is the object `cust` returns
for its id. -/
lemma cust_of_mem {s : PickupPoint} (hInv : Inv s) {c : Customer}
    (hc : c ∈ s.all_customers) :
    c.id < s.total_customers ∧ cust s c.id = c := by
  obtain ⟨⟨i, hi⟩, rfl⟩ := List.mem_iff_get.mp hc
  have hid := hInv.ids i hi
  constructor
  · rw [hid, ← hInv.len_eq]
    exact hi
  · rw [cust, hid, List.getD_eq_getElem?_getD, List.getElem?_eq_getElem hi,
      List.get_eq_getElem]
    rfl

/-- Claim C3, amended: when the balking draw succeeds the handler marks the
customer balked, counts it, and emits exactly one balk event for it (a no-op
when processed) — and nothing else: the capacity counters and both waiting
lines are untouched, the customer's object only gets `balked := true`, and in
the final state of any run every balked customer still has both
`start_service_time` and `departure_time` unset. -/
theorem C3_amended :
    (∀ (o : Oracle) (cid : ℕ) (s : PickupPoint),
      o.balkU s.nBalk < min (BAULK_PROBABILITY +
        ((if (cust s cid).is_self_service then s.self_service_queue.length
          else s.employee_queue.length : ℕ) : ℚ) * (1/50)) (1/2) →
      handle_arrival o cid s =
        schedule_balk s.time cid { s with nBalk := s.nBalk + 1 }) ∧
    (∀ (t : ℚ) (cid : ℕ) (s : PickupPoint),
      (schedule_balk t cid s).events =
          s.events ++ [⟨t, EventType.balk, cid⟩] ∧
      (schedule_balk t cid s).balked_customers = s.balked_customers + 1 ∧
      (schedule_balk t cid s).employee_queue = s.employee_queue ∧
      (schedule_balk t cid s).self_service_queue = s.self_service_queue ∧
      (schedule_balk t cid s).available_employees = s.available_employees ∧
      (schedule_balk t cid s).available_self_service =
          s.available_self_service) ∧
    (∀ (t : ℚ) (cid : ℕ) (s : PickupPoint), idsAligned s.all_customers →
      cid < s.all_customers.length →
      cust (schedule_balk t cid s) cid = { cust s cid with balked := true }) ∧
    (∀ (o : Oracle), validOracle o → ∀ (ne ns : ℤ) (bee : Bool) (T : ℚ)
      (fuel : ℕ), ∀ c ∈ (run_scenario o ne ns bee T fuel).all_customers,
      c.balked = true →
      c.start_service_time = none ∧ c.departure_time = none) := by
  refine ⟨?_, ?_, ?_, ?_⟩
  · intro o cid s h
    have hb : (will_customer_balk o (cust s cid).is_self_service s).1
        = true := by
      rw [will_customer_balk]
      exact decide_eq_true h
    rw [handle_arrival, if_pos hb]
    rfl
  · intro t cid s
    exact ⟨rfl, rfl, rfl, rfl, rfl, rfl⟩
  · intro t cid s hids hcl
    rw [cust, cust]
    show (setBalked cid s.all_customers).getD cid default = _
    rw [setBalked]
    exact getD_updId_eq hids _ hcl
  · intro o ho ne ns bee T fuel c hc hbk
    have hInv := inv_run_scenario ho ne ns bee T fuel
    obtain ⟨hlt, hcust⟩ := cust_of_mem hInv hc
    have hstat := hInv.status c.id hlt
    rcases hstat with ⟨_, _, _, h4, _⟩ | ⟨_, _, _, h4, _⟩ |
      ⟨_, _, _, _, h4, _⟩ | ⟨t', d, _, _, _, h4, _⟩ | ⟨b, _, _, h3, h4, _⟩ |
      ⟨_, _, h3, h4, _⟩ | ⟨t', d, _, _, _, h4, _⟩
    · rw [hcust, hbk] at h4; exact Bool.noConfusion h4
    · rw [hcust, hbk] at h4; exact Bool.noConfusion h4
    · rw [hcust, hbk] at h4; exact Bool.noConfusion h4
    · rw [hcust, hbk] at h4; exact Bool.noConfusion h4
    · rw [hcust] at h3 h4; exact ⟨h3, h4⟩
    · rw [hcust] at h3 h4; exact ⟨h3, h4⟩
    · rw [hcust, hbk] at h4; exact Bool.noConfusion h4

set_option maxHeartbeats 4000000 in
theorem C3_amended_witness :
    (cust (run_scenario oracleB 1 0 false 100 3) 0).start_service_time
        = none ∧
    (cust (run_scenario oracleB 1 0 false 100 3) 0).departure_time = none := by
  refine C3_amended.2.2.2 oracleB validOracleB 1 0 false 100 3
    (cust (run_scenario oracleB 1 0 false 100 3) 0) ?_ ?_ <;>
  norm_num [run_scenario, run_simulation, computeWaitingTimes, runLoop, step,
    extractMin, handle_arrival, handle_departure, serveOrQueue, dequeue_self,
    dequeue_emp, schedule_arrival, schedule_departure, schedule_balk,
    will_customer_balk, scheduleServiceDeparture, exponential_random, cust,
    setStart, setDeparture, setBalked, scaleService, applyBee,
    bee_algorithm_select_zone, argminLoad, bumpLoad, decFirstPositive,
    releaseZone, mkPickupPoint, initState, BAULK_PROBABILITY,
    DELAY_PROBABILITY, SELF_SERVICE_PROB, oracleB]

/-! ### Claim C4 -/

lemma getD_irrel {α : Type _} {xs : List α} {j : ℕ} (d d' : α)
    (h : j < xs.length) : xs.getD j d = xs.getD j d' := by
  rw [List.getD_eq_getElem?_getD, List.getD_eq_getElem?_getD,
    List.getElem?_eq_getElem h]
  rfl

lemma argminLoad_min :
    ∀ (zs : List Zone), ∀ j, j < zs.length →
      (zs.getD (argminLoad zs) ⟨0, 0, 1⟩).load ≤ (zs.getD j ⟨0, 0, 1⟩).load := by
  intro zs
  induction zs with
  | nil => intro j hj; exact absurd hj (by simp)
  | cons z zs ih =>
    intro j hj
    simp only [argminLoad]
    split
    · next hc =>
      cases j with
      | zero => exact le_refl _
      | succ k =>
        have hk : k < zs.length := by simpa using hj
        have hzs : zs ≠ [] := fun h => by subst h; exact absurd hk (by simp)
        have hd : zs.getD (argminLoad zs) ⟨0, z.load, 1⟩ =
            zs.getD (argminLoad zs) ⟨0, 0, 1⟩ :=
          getD_irrel _ _ (argminLoad_lt_length hzs)
        rw [hd] at hc
        show z.load ≤ (zs.getD k ⟨0, 0, 1⟩).load
        exact le_trans hc (ih k hk)
    · next hc =>
      have hzs : zs ≠ [] := fun h => by subst h; exact hc (le_refl _)
      cases j with
      | zero =>
        show (zs.getD (argminLoad zs) ⟨0, 0, 1⟩).load ≤ z.load
        have hd : zs.getD (argminLoad zs) ⟨0, z.load, 1⟩ =
            zs.getD (argminLoad zs) ⟨0, 0, 1⟩ :=
          getD_irrel _ _ (argminLoad_lt_length hzs)
        rw [hd] at hc
        exact le_of_lt (lt_of_not_le hc)
      | succ k =>
        have hk : k < zs.length := by simpa using hj
        show (zs.getD (argminLoad zs) ⟨0, 0, 1⟩).load ≤
          (zs.getD k ⟨0, 0, 1⟩).load
        exact ih k hk

lemma argminLoad_leftmost :
    ∀ (zs : List Zone), ∀ j, j < argminLoad zs →
      (zs.getD (argminLoad zs) ⟨0, 0, 1⟩).load < (zs.getD j ⟨0, 0, 1⟩).load := by
  intro zs
  induction zs with
  | nil => intro j hj; simp [argminLoad] at hj
  | cons z zs ih =>
    intro j hj
    simp only [argminLoad] at hj ⊢
    split at hj
    · next hc => exact absurd hj (by omega)
    · next hc =>
      have hzs : zs ≠ [] := fun h => by subst h; exact hc (le_refl _)
      rw [if_neg hc]
      cases j with
      | zero =>
        show (zs.getD (argminLoad zs) ⟨0, 0, 1⟩).load < z.load
        have hd : zs.getD (argminLoad zs) ⟨0, z.load, 1⟩ =
            zs.getD (argminLoad zs) ⟨0, 0, 1⟩ :=
          getD_irrel _ _ (argminLoad_lt_length hzs)
        rw [hd] at hc
        exact lt_of_not_le hc
      | succ k =>
        have hk : k < argminLoad zs := by omega
        show (zs.getD (argminLoad zs) ⟨0, 0, 1⟩).load <
          (zs.getD k ⟨0, 0, 1⟩).load
        exact ih k hk

lemma bumpLoad_getD_self : ∀ (i : ℕ) (zs : List Zone), i < zs.length →
    ((bumpLoad i zs).getD i ⟨0, 0, 1⟩).load = (zs.getD i ⟨0, 0, 1⟩).load + 1 := by
  intro i
  induction i with
  | zero =>
    intro zs h
    cases zs with
    | nil => exact absurd h (by simp)
    | cons z zs => rfl
  | succ n ih =>
    intro zs h
    cases zs with
    | nil => exact absurd h (by simp)
    | cons z zs =>
      show ((bumpLoad n zs).getD n ⟨0, 0, 1⟩).load = _
      exact ih zs (by simpa using h)

lemma bumpLoad_getD_other : ∀ (i j : ℕ) (zs : List Zone), j ≠ i →
    (bumpLoad i zs).getD j ⟨0, 0, 1⟩ = zs.getD j ⟨0, 0, 1⟩ := by
  intro i
  induction i with
  | zero =>
    intro j zs hj
    cases zs with
    | nil => rfl
    | cons z zs =>
      cases j with
      | zero => exact absurd rfl hj
      | succ k => rfl
  | succ n ih =>
    intro j zs hj
    cases zs with
    | nil => rfl
    | cons z zs =>
      cases j with
      | zero => rfl
      | succ k =>
        show (bumpLoad n zs).getD k _ = zs.getD k _
        exact ih k zs (by omega)

set_option maxHeartbeats 4000000 in
/-- Counterexample to claim C4 as stated: with the bee policy on and zero
staff capacity, a non-balking staff-assisted arrival is merely appended to
the waiting line (its service never starts), yet the zone-selection heuristic
has already run: zone 0's load was incremented.  So the heuristic does run
for customers that are only enqueued. -/
theorem C4_counterexample :
    (runLoop oracleA 100 1 (initState oracleA 0 0 true)).employee_queue
        = [0] ∧
    (cust (runLoop oracleA 100 1 (initState oracleA 0 0 true))
        0).start_service_time = none ∧
    (runLoop oracleA 100 1 (initState oracleA 0 0 true)).zones
        = some [⟨0, 1, 1⟩, ⟨1, 0, 1⟩, ⟨2, 0, 1⟩] := by
  norm_num [runLoop, step, extractMin, handle_arrival, handle_departure,
    serveOrQueue, dequeue_self, dequeue_emp, schedule_arrival,
    schedule_departure, schedule_balk, will_customer_balk,
    scheduleServiceDeparture, exponential_random, cust, setStart,
    setDeparture, setBalked, scaleService, applyBee,
    bee_algorithm_select_zone, argminLoad, bumpLoad, decFirstPositive,
    releaseZone, mkPickupPoint, initState, BAULK_PROBABILITY,
    DELAY_PROBABILITY, SELF_SERVICE_PROB, oracleA]

/-- Claim C4, amended: when the load-balancing policy is enabled the
zone-selection block picks the first zone of strictly smallest load (ties by
lowest index), increments exactly that zone's load, and multiplies the
customer's service duration by that zone's efficiency — but it runs at
*every* non-balking staff-assisted arrival (also when the customer is merely
appended to the waiting line), never at the arrival of a self-service
customer, and at every dequeue-on-departure for *either* channel (also for
self-service customers). -/
theorem C4_amended :
    (∀ zs : List Zone, zs ≠ [] →
      argminLoad zs < zs.length ∧
      (∀ j, j < zs.length →
        (zs.getD (argminLoad zs) ⟨0, 0, 1⟩).load ≤
          (zs.getD j ⟨0, 0, 1⟩).load) ∧
      (∀ j, j < argminLoad zs →
        (zs.getD (argminLoad zs) ⟨0, 0, 1⟩).load <
          (zs.getD j ⟨0, 0, 1⟩).load)) ∧
    (∀ (cid : ℕ) (s : PickupPoint) (zs : List Zone), s.zones = some zs →
      zs ≠ [] → idsAligned s.all_customers → cid < s.all_customers.length →
      (applyBee cid s).zones = some (bumpLoad (argminLoad zs) zs) ∧
      cust (applyBee cid s) cid =
        { cust s cid with service_time :=
            (cust s cid).service_time *
              (zs.getD (argminLoad zs) ⟨0, 0, 1⟩).efficiency }) ∧
    (∀ (i : ℕ) (zs : List Zone), i < zs.length →
      ((bumpLoad i zs).getD i ⟨0, 0, 1⟩).load =
          (zs.getD i ⟨0, 0, 1⟩).load + 1 ∧
      ∀ j, j ≠ i → (bumpLoad i zs).getD j ⟨0, 0, 1⟩ = zs.getD j ⟨0, 0, 1⟩) ∧
    (∀ (o : Oracle) (cid : ℕ) (s : PickupPoint),
      ¬ (o.balkU s.nBalk < min (BAULK_PROBABILITY +
        ((if (cust s cid).is_self_service then s.self_service_queue.length
          else s.employee_queue.length : ℕ) : ℚ) * (1/50)) (1/2)) →
      s.use_bee_algorithm = true → (cust s cid).is_self_service = false →
      handle_arrival o cid s =
        serveOrQueue o cid (applyBee cid { s with nBalk := s.nBalk + 1 })) ∧
    (∀ (o : Oracle) (cid : ℕ) (s : PickupPoint),
      (cust s cid).is_self_service = true →
      (handle_arrival o cid s).zones = s.zones) ∧
    (∀ (o : Oracle) (s : PickupPoint) (next : ℕ) (rest : List ℕ),
      s.self_service_queue = next :: rest → s.use_bee_algorithm = true →
      dequeue_self o s = scheduleServiceDeparture o next (applyBee next
        { s with self_service_queue := rest,
                 deqLogSelf := s.deqLogSelf ++ [next],
                 all_customers := setStart next s.time s.all_customers })) ∧
    (∀ (o : Oracle) (s : PickupPoint) (next : ℕ) (rest : List ℕ),
      s.employee_queue = next :: rest → s.use_bee_algorithm = true →
      dequeue_emp o s = scheduleServiceDeparture o next (applyBee next
        { s with employee_queue := rest,
                 deqLogEmp := s.deqLogEmp ++ [next],
                 all_customers := setStart next s.time s.all_customers })) := by
  refine ⟨?_, ?_, ?_, ?_, ?_, ?_, ?_⟩
  · intro zs hne
    exact ⟨argminLoad_lt_length hne, argminLoad_min zs, argminLoad_leftmost zs⟩
  · intro cid s zs hzs hne hids hcl
    have hsel : bee_algorithm_select_zone s = some (argminLoad zs) := by
      simp only [bee_algorithm_select_zone, hzs]
      rw [if_neg (by simpa [List.isEmpty_iff] using hne)]
    constructor
    · exact applyBee_zones_some zs hzs hne
    · simp only [applyBee, hsel]
      rw [cust, cust]
      show (scaleService cid _ s.all_customers).getD cid default = _
      rw [scaleService, getD_updId_eq hids _ hcl, hzs, Option.getD_some]
  · intro i zs h
    exact ⟨bumpLoad_getD_self i zs h, fun j hj => bumpLoad_getD_other i j zs hj⟩
  · intro o cid s h huse hself
    have hb : (will_customer_balk o (cust s cid).is_self_service s).1
        = false := by
      rw [will_customer_balk]
      exact decide_eq_false h
    have hbee : ((will_customer_balk o (cust s cid).is_self_service
        s).2.use_bee_algorithm && !(cust s cid).is_self_service) = true := by
      show (s.use_bee_algorithm && !(cust s cid).is_self_service) = true
      rw [huse, hself]
      rfl
    rw [handle_arrival, if_neg (by rw [hb]; simp)]
    show serveOrQueue o cid
        (if ((will_customer_balk o (cust s cid).is_self_service
            s).2.use_bee_algorithm && !(cust s cid).is_self_service) = true
          then applyBee cid (will_customer_balk o
            (cust s cid).is_self_service s).2
          else (will_customer_balk o (cust s cid).is_self_service s).2) = _
    rw [if_pos hbee]
    rfl
  · intro o cid s hself
    have hbee : ((will_customer_balk o (cust s cid).is_self_service
        s).2.use_bee_algorithm && !(cust s cid).is_self_service) = false := by
      show (s.use_bee_algorithm && !(cust s cid).is_self_service) = false
      rw [hself]
      simp
    rw [handle_arrival]
    split
    · rfl
    · show (serveOrQueue o cid
          (if ((will_customer_balk o (cust s cid).is_self_service
              s).2.use_bee_algorithm && !(cust s cid).is_self_service) = true
            then applyBee cid (will_customer_balk o
              (cust s cid).is_self_service s).2
            else (will_customer_balk o
              (cust s cid).is_self_service s).2)).zones = s.zones
      rw [serveOrQueue_zones, if_neg (by rw [hbee]; simp)]
      rfl
  · intro o s next rest hq huse
    rw [dequeue_self, hq]
    simp only []
    rw [if_pos (show ({ s with
        self_service_queue := rest,
        deqLogSelf := s.deqLogSelf ++ [next],
        all_customers := setStart next s.time s.all_customers } :
          PickupPoint).use_bee_algorithm = true from huse)]
  · intro o s next rest hq huse
    rw [dequeue_emp, hq]
    simp only []
    rw [if_pos (show ({ s with
        employee_queue := rest,
        deqLogEmp := s.deqLogEmp ++ [next],
        all_customers := setStart next s.time s.all_customers } :
          PickupPoint).use_bee_algorithm = true from huse)]

/-- A bee-enabled state with one staff-assisted customer about to be handled,
used to exercise `C4_amended`. -/
def beeState : PickupPoint :=
  ⟨0, 0, true, 0, 0, [], [], [⟨0, 1, none, none, 10, false, false⟩], [], [],
   1, 1, some [⟨0, 0, 1⟩, ⟨1, 0, 1⟩, ⟨2, 0, 1⟩], 0, 0, 0, 1, 1, 1, 0, 0, 0,
   [], [], [], []⟩

theorem C4_amended_witness :
    argminLoad [⟨0, 5, 1⟩, ⟨1, 2, 1⟩, ⟨2, 2, 1⟩] <
      ([⟨0, 5, 1⟩, ⟨1, 2, 1⟩, ⟨2, 2, 1⟩] : List Zone).length ∧
    handle_arrival oracleA 0 beeState =
      serveOrQueue oracleA 0
        (applyBee 0 { beeState with nBalk := beeState.nBalk + 1 }) := by
  constructor
  · exact (C4_amended.1 [⟨0, 5, 1⟩, ⟨1, 2, 1⟩, ⟨2, 2, 1⟩] (by simp)).1
  · exact C4_amended.2.2.2.1 oracleA 0 beeState
      (by norm_num [beeState, cust, oracleA, BAULK_PROBABILITY]) rfl rfl

/-! ### Claim C5 -/

set_option maxHeartbeats 4000000 in
/-- Counterexample to claim C5 as stated: right after the first arrival is
served, a departure event for customer 0 is pending while that customer's
`departure_time` is already set (the source assigns it at scheduling time),
contradicting "its departure timestamp is unset ... while the event is
pending". -/
theorem C5_counterexample :
    (⟨11, EventType.departure, 0⟩ : Event) ∈
      (runLoop oracleA 100 1 (initState oracleA 1 0 false)).events ∧
    (cust (runLoop oracleA 100 1 (initState oracleA 1 0 false))
        0).departure_time = some 11 := by
  norm_num [runLoop, step, extractMin, handle_arrival, handle_departure,
    serveOrQueue, dequeue_self, dequeue_emp, schedule_arrival,
    schedule_departure, schedule_balk, will_customer_balk,
    scheduleServiceDeparture, exponential_random, cust, setStart,
    setDeparture, setBalked, scaleService, applyBee,
    bee_algorithm_select_zone, argminLoad, bumpLoad, decFirstPositive,
    releaseZone, mkPickupPoint, initState, BAULK_PROBABILITY,
    DELAY_PROBABILITY, SELF_SERVICE_PROB, oracleA]

/-- Claim C5, amended: in every state reached by the run loop, every pending
departure event references a customer whose departure timestamp is *already
set* (to the event's own time), whose balked flag is false and whose service
has started; every pending balk event references a customer whose balked flag
is *already true* and whose start-of-service and departure timestamps are
unset.  (The source sets `departure_time` in `schedule_departure` and
`balked` in `schedule_balk`, i.e. at scheduling time, not when the event
fires.) -/
theorem C5_amended (o : Oracle) (ho : validOracle o) (ne ns : ℤ) (bee : Bool)
    (T : ℚ) (fuel : ℕ) :
    ∀ e ∈ (runLoop o T fuel (initState o ne ns bee)).events,
      (e.type = EventType.departure →
        (cust (runLoop o T fuel (initState o ne ns bee))
            e.customer).departure_time = some e.time ∧
        (cust (runLoop o T fuel (initState o ne ns bee))
            e.customer).balked = false ∧
        (cust (runLoop o T fuel (initState o ne ns bee))
            e.customer).start_service_time ≠ none) ∧
      (e.type = EventType.balk →
        (cust (runLoop o T fuel (initState o ne ns bee))
            e.customer).balked = true ∧
        (cust (runLoop o T fuel (initState o ne ns bee))
            e.customer).start_service_time = none ∧
        (cust (runLoop o T fuel (initState o ne ns bee))
            e.customer).departure_time = none) := by
  intro e he
  have hI : Inv (runLoop o T fuel (initState o ne ns bee)) :=
    inv_runLoop ho fuel (inv_initState ho ne ns bee)
  set s := runLoop o T fuel (initState o ne ns bee) with hs
  have hcl : e.customer < s.total_customers := hI.ev_valid e he
  have hmem : e ∈ evFor s e.customer := by
    rw [evFor]
    exact List.mem_filter.2 ⟨he, by simp⟩
  rcases hI.status e.customer hcl with
    ⟨hev, _⟩ | ⟨hev, _⟩ | ⟨hev, _⟩ |
    ⟨t, d, hev, hst, hdep, hbk, _⟩ | ⟨b, hev, hbk, hst, hdep, _⟩ |
    ⟨hev, _⟩ | ⟨t, d, hev, _⟩
  · rw [hev] at hmem
    have heq := List.mem_singleton.1 hmem
    refine ⟨fun hty => ?_, fun hty => ?_⟩ <;>
      · rw [heq] at hty
        simp at hty
  · rw [hev] at hmem
    exact absurd hmem (List.not_mem_nil e)
  · rw [hev] at hmem
    exact absurd hmem (List.not_mem_nil e)
  · rw [hev] at hmem
    have heq := List.mem_singleton.1 hmem
    have hti : e.time = d := by rw [heq]
    refine ⟨fun _ => ⟨?_, hbk, ?_⟩, fun hty => ?_⟩
    · rw [hti]
      exact hdep
    · rw [hst]
      simp
    · rw [heq] at hty
      simp at hty
  · rw [hev] at hmem
    have heq := List.mem_singleton.1 hmem
    refine ⟨fun hty => ?_, fun _ => ⟨hbk, hst, hdep⟩⟩
    rw [heq] at hty
    simp at hty
  · rw [hev] at hmem
    exact absurd hmem (List.not_mem_nil e)
  · rw [hev] at hmem
    exact absurd hmem (List.not_mem_nil e)

set_option maxHeartbeats 4000000 in
theorem C5_amended_witness :
    (⟨11, EventType.departure, 0⟩ : Event) ∈
      (runLoop oracleA 100 1 (initState oracleA 1 0 false)).events ∧
    (cust (runLoop oracleA 100 1 (initState oracleA 1 0 false))
        0).departure_time = some 11 := by
  have hmem : (⟨11, EventType.departure, 0⟩ : Event) ∈
      (runLoop oracleA 100 1 (initState oracleA 1 0 false)).events := by
    norm_num [runLoop, step, extractMin, handle_arrival, handle_departure,
      serveOrQueue, dequeue_self, dequeue_emp, schedule_arrival,
      schedule_departure, schedule_balk, will_customer_balk,
      scheduleServiceDeparture, exponential_random, cust, setStart,
      setDeparture, setBalked, scaleService, applyBee,
      bee_algorithm_select_zone, argminLoad, bumpLoad, decFirstPositive,
      releaseZone, mkPickupPoint, initState, BAULK_PROBABILITY,
      DELAY_PROBABILITY, SELF_SERVICE_PROB, oracleA]
  exact ⟨hmem,
    ((C5_amended oracleA validOracleA 1 0 false 100 1 _ hmem).1 rfl).1⟩

/-! ### Claim C6 -/

/-- A customer sitting in either waiting line has not started service, has
not departed and has not balked. -/
lemma queued_status {s : PickupPoint} (hI : Inv s) {cid : ℕ}
    (hq : inQueues s cid) :
    (cust s cid).start_service_time = none ∧
    (cust s cid).departure_time = none ∧ (cust s cid).balked = false := by
  have hcl : cid < s.total_customers := by
    rcases hq with h | h
    · exact (hI.q_emp cid h).1
    · exact (hI.q_self cid h).1
  rcases hI.status cid hcl with
    ⟨_, _, _, _, hnq⟩ | ⟨_, _, _, _, hnq, _⟩ | ⟨_, _, hst, hdep, hbk, _⟩ |
    ⟨t, d, _, _, _, _, hnq, _⟩ | ⟨b, _, _, _, _, hnq⟩ | ⟨_, _, _, _, hnq⟩ |
    ⟨t, d, _, _, _, _, hnq, _⟩
  · exact absurd hq hnq
  · exact absurd hq hnq
  · exact ⟨hst, hdep, hbk⟩
  · exact absurd hq hnq
  · exact absurd hq hnq
  · exact absurd hq hnq
  · exact absurd hq hnq

lemma getD_append_lt_nat (l l' : List ℕ) (n : ℕ) (h : n < l.length) :
    (l ++ l').getD n 0 = l.getD n 0 := by
  rw [List.getD_eq_getElem?_getD, List.getD_eq_getElem?_getD,
    List.getElem?_append_left h]

/-- Zeta-expanded branch structure of `handle_arrival`. -/
lemma handle_arrival_cases (o : Oracle) (cid : ℕ) (s : PickupPoint) :
    handle_arrival o cid s =
      if (will_customer_balk o (cust s cid).is_self_service s).1 = true then
        schedule_balk
          (will_customer_balk o (cust s cid).is_self_service s).2.time cid
          (will_customer_balk o (cust s cid).is_self_service s).2
      else
        serveOrQueue o cid
          (if ((will_customer_balk o (cust s cid).is_self_service
              s).2.use_bee_algorithm && !(cust s cid).is_self_service) = true
            then applyBee cid
              (will_customer_balk o (cust s cid).is_self_service s).2
            else (will_customer_balk o (cust s cid).is_self_service s).2) :=
  rfl

lemma scheduleServiceDeparture_qemp (o : Oracle) (cid : ℕ) (s : PickupPoint) :
    (scheduleServiceDeparture o cid s).employee_queue = s.employee_queue := by
  rw [scheduleServiceDeparture]
  split <;> rfl

lemma scheduleServiceDeparture_qself (o : Oracle) (cid : ℕ) (s : PickupPoint) :
    (scheduleServiceDeparture o cid s).self_service_queue
      = s.self_service_queue := by
  rw [scheduleServiceDeparture]
  split <;> rfl

/-- The capacity-check tail can only extend the waiting lines (by the handled
customer), never shorten them. -/
lemma serveOrQueue_qgrow (o : Oracle) (cid : ℕ) (s : PickupPoint) :
    ∃ t1 t2, (serveOrQueue o cid s).employee_queue = s.employee_queue ++ t1 ∧
      (serveOrQueue o cid s).self_service_queue
        = s.self_service_queue ++ t2 := by
  rw [serveOrQueue]
  split
  · exact ⟨[], [], by simp [scheduleServiceDeparture_qemp],
      by simp [scheduleServiceDeparture_qself]⟩
  · split
    · exact ⟨[], [], by simp [scheduleServiceDeparture_qemp],
        by simp [scheduleServiceDeparture_qself]⟩
    · split
      · exact ⟨[], [cid], by simp, rfl⟩
      · exact ⟨[cid], [], rfl, by simp⟩

/-- The arrival transition can only extend the waiting lines, never shorten
them. -/
lemma handle_arrival_qgrow (o : Oracle) (cid : ℕ) (s : PickupPoint) :
    ∃ t1 t2, (handle_arrival o cid s).employee_queue
        = s.employee_queue ++ t1 ∧
      (handle_arrival o cid s).self_service_queue
        = s.self_service_queue ++ t2 := by
  rw [handle_arrival_cases]
  by_cases hb : (will_customer_balk o (cust s cid).is_self_service s).1 = true
  · rw [if_pos hb]
    exact ⟨[], [], by simp [schedule_balk, will_customer_balk],
      by simp [schedule_balk, will_customer_balk]⟩
  · rw [if_neg hb]
    by_cases hbee : ((will_customer_balk o (cust s cid).is_self_service
        s).2.use_bee_algorithm && !(cust s cid).is_self_service) = true
    · rw [if_pos hbee]
      obtain ⟨t1, t2, h1, h2⟩ := serveOrQueue_qgrow o cid
        (applyBee cid (will_customer_balk o (cust s cid).is_self_service s).2)
      refine ⟨t1, t2, ?_, ?_⟩
      · rw [h1, applyBee_qemp]
        rfl
      · rw [h2, applyBee_qself]
        rfl
    · rw [if_neg hbee]
      obtain ⟨t1, t2, h1, h2⟩ := serveOrQueue_qgrow o cid
        (will_customer_balk o (cust s cid).is_self_service s).2
      refine ⟨t1, t2, ?_, ?_⟩
      · rw [h1]
        rfl
      · rw [h2]
        rfl

/-- Claim C6, confirmed: in every state reached by the run loop, waiting-line
membership is disjoint from in-service membership (queued customers have no
start-of-service time, and customers whose service has started are in no
waiting line); each channel's enqueue history equals its dequeue history
followed by the current line, so the n-th customer ever enqueued is the n-th
ever dequeued (FIFO); and the arrival transition never removes anyone from a
waiting line (it can only extend the lines and leaves the dequeue histories
unchanged) — pops happen only in the departure transition. -/
theorem C6_queue_discipline (o : Oracle) (ho : validOracle o) (ne ns : ℤ)
    (bee : Bool) (T : ℚ) (fuel : ℕ) :
    (∀ cid, inQueues (runLoop o T fuel (initState o ne ns bee)) cid →
      (cust (runLoop o T fuel (initState o ne ns bee))
          cid).start_service_time = none ∧
      (cust (runLoop o T fuel (initState o ne ns bee))
          cid).departure_time = none) ∧
    (∀ cid, (cust (runLoop o T fuel (initState o ne ns bee))
          cid).start_service_time ≠ none →
      ¬ inQueues (runLoop o T fuel (initState o ne ns bee)) cid) ∧
    (runLoop o T fuel (initState o ne ns bee)).enqLogEmp
      = (runLoop o T fuel (initState o ne ns bee)).deqLogEmp ++
          (runLoop o T fuel (initState o ne ns bee)).employee_queue ∧
    (runLoop o T fuel (initState o ne ns bee)).enqLogSelf
      = (runLoop o T fuel (initState o ne ns bee)).deqLogSelf ++
          (runLoop o T fuel (initState o ne ns bee)).self_service_queue ∧
    (∀ n, n < (runLoop o T fuel (initState o ne ns bee)).deqLogEmp.length →
      (runLoop o T fuel (initState o ne ns bee)).enqLogEmp.getD n 0
        = (runLoop o T fuel (initState o ne ns bee)).deqLogEmp.getD n 0) ∧
    (∀ n, n < (runLoop o T fuel (initState o ne ns bee)).deqLogSelf.length →
      (runLoop o T fuel (initState o ne ns bee)).enqLogSelf.getD n 0
        = (runLoop o T fuel (initState o ne ns bee)).deqLogSelf.getD n 0) ∧
    (∀ (o2 : Oracle) (cid : ℕ) (st : PickupPoint), ∃ t1 t2,
      (handle_arrival o2 cid st).employee_queue = st.employee_queue ++ t1 ∧
      (handle_arrival o2 cid st).self_service_queue
        = st.self_service_queue ++ t2 ∧
      (handle_arrival o2 cid st).deqLogEmp = st.deqLogEmp ∧
      (handle_arrival o2 cid st).deqLogSelf = st.deqLogSelf) := by
  have hI : Inv (runLoop o T fuel (initState o ne ns bee)) :=
    inv_runLoop ho fuel (inv_initState ho ne ns bee)
  set s := runLoop o T fuel (initState o ne ns bee) with hs
  refine ⟨?_, ?_, hI.log_emp, hI.log_self, ?_, ?_, ?_⟩
  · intro cid hq
    exact ⟨(queued_status hI hq).1, (queued_status hI hq).2.1⟩
  · intro cid hst hq
    exact hst (queued_status hI hq).1
  · intro n hn
    rw [hI.log_emp]
    exact getD_append_lt_nat _ _ n hn
  · intro n hn
    rw [hI.log_self]
    exact getD_append_lt_nat _ _ n hn
  · intro o2 cid st
    obtain ⟨t1, t2, h1, h2⟩ := handle_arrival_qgrow o2 cid st
    exact ⟨t1, t2, h1, h2, handle_arrival_deqEmp o2 cid st,
      handle_arrival_deqSelf o2 cid st⟩

theorem C6_queue_discipline_witness :
    (runLoop oracleA 100 4 (initState oracleA 1 0 false)).enqLogEmp
      = (runLoop oracleA 100 4 (initState oracleA 1 0 false)).deqLogEmp ++
          (runLoop oracleA 100 4 (initState oracleA 1 0 false)).employee_queue :=
  (C6_queue_discipline oracleA validOracleA 1 0 false 100 4).2.2.1

/-! ### Claim C7 -/

/-- Claim C7, confirmed: for every customer of a completed run whose
start-of-service and departure timestamps are both set,
`arrival_time ≤ start_of_service_time ≤ departure_time`. -/
theorem C7_timestamps (o : Oracle) (ho : validOracle o) (ne ns : ℤ)
    (bee : Bool) (T : ℚ) (fuel : ℕ) :
    ∀ c ∈ (run_scenario o ne ns bee T fuel).all_customers, ∀ t d,
      c.start_service_time = some t → c.departure_time = some d →
      c.arrival_time ≤ t ∧ t ≤ d := by
  intro c hc t d hst hdep
  have hI : Inv (run_scenario o ne ns bee T fuel) :=
    inv_run_scenario ho ne ns bee T fuel
  obtain ⟨hcl, hcust⟩ := cust_of_mem hI hc
  rcases hI.status c.id hcl with
    ⟨_, h2, _⟩ | ⟨_, h2, _⟩ | ⟨_, _, h2, _⟩ |
    ⟨t0, d0, _, h2, h3, _, _, h5, h6, _⟩ | ⟨b, _, _, h2, _⟩ |
    ⟨_, _, h2, _⟩ | ⟨t0, d0, _, h2, h3, _, _, h5, h6, _⟩
  · rw [hcust, hst] at h2
    exact absurd h2 (by simp)
  · rw [hcust, hst] at h2
    exact absurd h2 (by simp)
  · rw [hcust, hst] at h2
    exact absurd h2 (by simp)
  · rw [hcust] at h2 h3 h5
    have ht := Option.some.inj (h2.symm.trans hst)
    have hd := Option.some.inj (h3.symm.trans hdep)
    subst ht
    subst hd
    exact ⟨h5, h6⟩
  · rw [hcust, hst] at h2
    exact absurd h2 (by simp)
  · rw [hcust, hst] at h2
    exact absurd h2 (by simp)
  · rw [hcust] at h2 h3 h5
    have ht := Option.some.inj (h2.symm.trans hst)
    have hd := Option.some.inj (h3.symm.trans hdep)
    subst ht
    subst hd
    exact ⟨h5, h6⟩

set_option maxHeartbeats 4000000 in
theorem C7_timestamps_witness :
    (⟨0, 1, some 1, some 11, 10, false, false⟩ : Customer) ∈
      (run_scenario oracleA 1 0 false 100 10).all_customers ∧
    (1 : ℚ) ≤ 1 ∧ (1 : ℚ) ≤ 11 := by
  have hmem : (⟨0, 1, some 1, some 11, 10, false, false⟩ : Customer) ∈
      (run_scenario oracleA 1 0 false 100 10).all_customers := by
    norm_num [run_scenario, run_simulation, computeWaitingTimes, runLoop,
      step, extractMin, handle_arrival, handle_departure, serveOrQueue,
      dequeue_self, dequeue_emp, schedule_arrival, schedule_departure,
      schedule_balk, will_customer_balk, scheduleServiceDeparture,
      exponential_random, cust, setStart, setDeparture, setBalked,
      scaleService, applyBee, bee_algorithm_select_zone, argminLoad,
      bumpLoad, decFirstPositive, releaseZone, mkPickupPoint, initState,
      BAULK_PROBABILITY, DELAY_PROBABILITY, SELF_SERVICE_PROB, oracleA]
  exact ⟨hmem,
    C7_timestamps oracleA validOracleA 1 0 false 100 10 _ hmem 1 11 rfl rfl⟩

/-! ### Claim C8 -/

/-- Claim C8, confirmed: the complete run is a pure function of the seeded
draw streams and the configuration.  Two runs with identical draw streams
(identical seed), identical capacities, policy flag, horizon and fuel produce
identical per-customer timestamp sequences, identical balked flags and
identical aggregates. -/
theorem C8_determinism (o1 o2 : Oracle) (ne1 ne2 ns1 ns2 : ℤ)
    (bee1 bee2 : Bool) (T1 T2 : ℚ) (fuel1 fuel2 : ℕ)
    (ho : o1 = o2) (hne : ne1 = ne2) (hns : ns1 = ns2) (hbee : bee1 = bee2)
    (hT : T1 = T2) (hfuel : fuel1 = fuel2) :
    (run_scenario o1 ne1 ns1 bee1 T1 fuel1).all_customers.map
        (fun c => (c.arrival_time, c.start_service_time, c.departure_time))
      = (run_scenario o2 ne2 ns2 bee2 T2 fuel2).all_customers.map
        (fun c => (c.arrival_time, c.start_service_time, c.departure_time)) ∧
    (run_scenario o1 ne1 ns1 bee1 T1 fuel1).all_customers.map
        (fun c => c.balked)
      = (run_scenario o2 ne2 ns2 bee2 T2 fuel2).all_customers.map
        (fun c => c.balked) ∧
    (run_scenario o1 ne1 ns1 bee1 T1 fuel1).total_customers
      = (run_scenario o2 ne2 ns2 bee2 T2 fuel2).total_customers ∧
    customers_served (run_scenario o1 ne1 ns1 bee1 T1 fuel1)
      = customers_served (run_scenario o2 ne2 ns2 bee2 T2 fuel2) ∧
    (run_scenario o1 ne1 ns1 bee1 T1 fuel1).balked_customers
      = (run_scenario o2 ne2 ns2 bee2 T2 fuel2).balked_customers ∧
    (run_scenario o1 ne1 ns1 bee1 T1 fuel1).waiting_times
      = (run_scenario o2 ne2 ns2 bee2 T2 fuel2).waiting_times := by
  subst ho
  subst hne
  subst hns
  subst hbee
  subst hT
  subst hfuel
  exact ⟨rfl, rfl, rfl, rfl, rfl, rfl⟩

theorem C8_determinism_witness :
    (run_scenario oracleA 1 0 false 100 10).total_customers
      = (run_scenario oracleA 1 0 false 100 10).total_customers :=
  (C8_determinism oracleA oracleA 1 1 0 0 false false 100 100 10 10
    rfl rfl rfl rfl rfl rfl).2.2.1

/-! ### Claim C9 -/

set_option maxHeartbeats 4000000 in
/-- Counterexample to claim C9 as stated: the constructor performs no
validation and reports no error.  Constructing the engine with zero
self-service capacity succeeds and returns an ordinary engine state with the
given (degenerate) capacities, and running it silently leaves the
self-service-preferring customer queued forever (never served, no error),
instead of failing fast at construction. -/
theorem C9_counterexample :
    mkPickupPoint 3 0 false =
      ⟨3, 0, false, 3, 0, [], [], [], [], [], 0, 0, none, 0, 0, 0, 0, 0, 0,
        0, 0, 0, [], [], [], []⟩ ∧
    mkPickupPoint 3 (-1) false =
      ⟨3, -1, false, 3, -1, [], [], [], [], [], 0, 0, none, 0, 0, 0, 0, 0, 0,
        0, 0, 0, [], [], [], []⟩ ∧
    (run_scenario oracleD 3 0 false 100 5).self_service_queue = [0] ∧
    (cust (run_scenario oracleD 3 0 false 100 5) 0).start_service_time
        = none ∧
    customers_served (run_scenario oracleD 3 0 false 100 5) = 0 := by
  refine ⟨rfl, rfl, ?_, ?_, ?_⟩ <;>
  norm_num [run_scenario, run_simulation, computeWaitingTimes, runLoop, step,
    extractMin, handle_arrival, handle_departure, serveOrQueue, dequeue_self,
    dequeue_emp, schedule_arrival, schedule_departure, schedule_balk,
    will_customer_balk, scheduleServiceDeparture, exponential_random, cust,
    setStart, setDeparture, setBalked, scaleService, applyBee,
    bee_algorithm_select_zone, argminLoad, bumpLoad, decFirstPositive,
    releaseZone, mkPickupPoint, initState, customers_served,
    BAULK_PROBABILITY, DELAY_PROBABILITY, SELF_SERVICE_PROB, oracleD]

/-- Claim C9, amended: the constructor performs no validation at all — it
accepts every configuration (including zero or negative channel capacities)
and returns an ordinary engine state with the capacity arguments copied
verbatim into both the configured and the available counters, never
signalling an error; a degenerate configuration is only felt mid-run (see
the silent starvation exhibited in the counterexample run). -/
theorem C9_amended :
    ∀ (ne ns : ℤ) (bee : Bool),
      (mkPickupPoint ne ns bee).num_employees = ne ∧
      (mkPickupPoint ne ns bee).num_self_service = ns ∧
      (mkPickupPoint ne ns bee).available_employees = ne ∧
      (mkPickupPoint ne ns bee).available_self_service = ns ∧
      (mkPickupPoint ne ns bee).use_bee_algorithm = bee ∧
      (mkPickupPoint ne ns bee).zones
        = (if bee then some [⟨0, 0, 1⟩, ⟨1, 0, 1⟩, ⟨2, 0, 1⟩] else none) ∧
      (mkPickupPoint ne ns bee).all_customers = [] ∧
      (mkPickupPoint ne ns bee).events = [] := by
  intro ne ns bee
  exact ⟨rfl, rfl, rfl, rfl, rfl, rfl, rfl, rfl⟩

/-! ### Claim C10 -/

set_option maxHeartbeats 4000000 in
/-- Claim C10, confirmed: `schedule_departure` assigns the customer's
`departure_time` at scheduling time (when its service starts), not when the
departure event fires; consequently at the end of a run a customer has a
departure timestamp iff its service ever started, and the `customers_served`
aggregate counts customers whose departure events are still pending beyond
the horizon.  Concretely (two staff servers, horizon 10): the run ends with
the departure events of customers 1 and 2 still pending at times 12 and 21,
yet all three customers carry departure timestamps and are counted as
served. -/
theorem C10_departure_at_scheduling :
    (∀ (t : ℚ) (cid : ℕ) (st : PickupPoint), idsAligned st.all_customers →
      cid < st.all_customers.length →
      cust (schedule_departure t cid st) cid
          = { cust st cid with departure_time := some t } ∧
      (⟨t, EventType.departure, cid⟩ : Event)
          ∈ (schedule_departure t cid st).events) ∧
    (∀ (o : Oracle), validOracle o → ∀ (ne ns : ℤ) (bee : Bool) (T : ℚ)
        (fuel : ℕ),
      ∀ c ∈ (run_scenario o ne ns bee T fuel).all_customers,
        (c.departure_time ≠ none ↔ c.start_service_time ≠ none)) ∧
    (run_scenario oracleA 2 0 false 10 6).events
      = [⟨12, EventType.departure, 1⟩, ⟨21, EventType.departure, 2⟩] ∧
    (cust (run_scenario oracleA 2 0 false 10 6) 1).start_service_time
      = some 2 ∧
    (cust (run_scenario oracleA 2 0 false 10 6) 1).departure_time
      = some 12 ∧
    customers_served (run_scenario oracleA 2 0 false 10 6) = 3 := by
  refine ⟨?_, ?_, ?_⟩
  · intro t cid st hids hcl
    constructor
    · rw [cust, cust]
      show (setDeparture cid t st.all_customers).getD cid default = _
      rw [setDeparture, getD_updId_eq hids _ hcl]
    · simp [schedule_departure]
  · intro o ho ne ns bee T fuel c hc
    have hI : Inv (run_scenario o ne ns bee T fuel) :=
      inv_run_scenario ho ne ns bee T fuel
    obtain ⟨hcl, hcust⟩ := cust_of_mem hI hc
    rcases hI.status c.id hcl with
      ⟨_, h2, h3, _⟩ | ⟨_, h2, h3, _⟩ | ⟨_, _, h2, h3, _⟩ |
      ⟨t0, d0, _, h2, h3, _⟩ | ⟨b, _, _, h2, h3, _⟩ |
      ⟨_, _, h2, h3, _⟩ | ⟨t0, d0, _, h2, h3, _⟩
    all_goals rw [hcust] at h2 h3
    all_goals simp [h2, h3]
  · refine ⟨?_, ?_, ?_, ?_⟩ <;>
    norm_num [run_scenario, run_simulation, computeWaitingTimes, runLoop,
      step, extractMin, handle_arrival, handle_departure, serveOrQueue,
      dequeue_self, dequeue_emp, schedule_arrival, schedule_departure,
      schedule_balk, will_customer_balk, scheduleServiceDeparture,
      exponential_random, cust, setStart, setDeparture, setBalked,
      scaleService, applyBee, bee_algorithm_select_zone, argminLoad,
      bumpLoad, decFirstPositive, releaseZone, mkPickupPoint, initState,
      customers_served, List.filter_cons, List.filter_nil,
      BAULK_PROBABILITY, DELAY_PROBABILITY,
      SELF_SERVICE_PROB, oracleA] <;> simp

set_option maxHeartbeats 4000000 in
theorem C10_departure_at_scheduling_witness :
    cust (schedule_departure 5 0 beeState) 0
        = { cust beeState 0 with departure_time := some 5 } ∧
    ((⟨0, 1, some 1, some 11, 10, false, false⟩ :
        Customer).departure_time ≠ none ↔
      (⟨0, 1, some 1, some 11, 10, false, false⟩ :
        Customer).start_service_time ≠ none) := by
  have hids : idsAligned beeState.all_customers := by
    intro i h
    have h1 : i = 0 := Nat.lt_one_iff.mp h
    subst h1
    rfl
  have hmem : (⟨0, 1, some 1, some 11, 10, false, false⟩ : Customer) ∈
      (run_scenario oracleA 1 0 false 100 10).all_customers := by
    norm_num [run_scenario, run_simulation, computeWaitingTimes, runLoop,
      step, extractMin, handle_arrival, handle_departure, serveOrQueue,
      dequeue_self, dequeue_emp, schedule_arrival, schedule_departure,
      schedule_balk, will_customer_balk, scheduleServiceDeparture,
      exponential_random, cust, setStart, setDeparture, setBalked,
      scaleService, applyBee, bee_algorithm_select_zone, argminLoad,
      bumpLoad, decFirstPositive, releaseZone, mkPickupPoint, initState,
      BAULK_PROBABILITY, DELAY_PROBABILITY, SELF_SERVICE_PROB, oracleA]
  exact ⟨(C10_departure_at_scheduling.1 5 0 beeState hids
      (by simp [beeState])).1,
    C10_departure_at_scheduling.2.1 oracleA validOracleA 1 0 false 100 10
      _ hmem⟩

end PVZ
